import Mathlib

/-!
Verification development for the `compute_inversions` subsystem of
`tofu` (file `src/tofu/data/_inversions_comp.py`).

The development shallowly embeds the augmented-Tikhonov solver backends
(`inv_linear_augTikho_v1`, `inv_linear_augTikho_v1_sparse`,
`inv_linear_augTikho_chol`, `inv_linear_augTikho_chol_sparse`), the time
loop driver `_compute_inv_loop`, the regularization-operator selector and
the result-formatting tail of `compute_inversions`.

Modelling conventions:
* floating point numbers are modelled by `ℝ`; numpy's `**` on floats is
  `Real.rpow`;
* numpy arrays are functions `Fin n → ℝ`, 2d arrays are `Matrix`;
* calls into external libraries (`scipy.linalg.solve`,
  `scipy.sparse.linalg.spsolve`, `scipy.linalg.cholesky`/`cho_solve`,
  `sksparse.cholmod`) are oracle parameters: the code under verification is
  everything around them, their numerics are opaque;
* the Python `while` loop is modelled with an explicit fuel parameter,
  returning `none` when the fuel is exhausted before the exit condition
  holds (the source loop has no iteration cap);
* the four backend bodies are textually identical in the source except for
  the linear-solve step (and the factor object threaded by the sparse
  Cholesky variant), so they are embedded as four instantiations of one
  step/run pair, each with its own solve oracle;
* in-place mutation of caller-supplied numpy buffers (`sol0[:] = sol[:]`
  inside the backends, `Tn`/`TTn` updates in the driver) is made explicit
  by threading the mutated values through the recursion and returning them.
-/

set_option linter.unusedVariables false
set_option maxHeartbeats 1000000

open scoped Classical
open Matrix

noncomputable section

/-- Derived prior constant, `_inversions_comp.py` line 490:
`a0bis = a0 - 1. + nbs/2. if not nbs_fixed else a0 - 1. + 1200./2.`
(the same line appears in all four backends). -/
def a0bis (a0 : ℝ) (nbs : ℕ) (nbs_fixed : Bool) : ℝ :=
  if nbs_fixed then a0 - 1 + 1200 / 2 else a0 - 1 + (nbs : ℝ) / 2

/-- Derived prior constant, line 491: `a1bis = a1 - 1. + nchan/2.`. -/
def a1bis (a1 : ℝ) (nchan : ℕ) : ℝ :=
  a1 - 1 + (nchan : ℝ) / 2

/-- Hyperparameter re-estimation, lines 527-529 (identical in all four
backends):
`lamb = a0bis/(0.5*reg + b0)`, `tau = a1bis/(0.5*res2 + b1)`,
`mu1 = (lamb/tau) * (2*a1bis/res2)**d`.
Returns `(lamb, tau, mu1)`. -/
def augTikhoUpdate (a0b b0 a1b b1 d res2 reg : ℝ) : ℝ × ℝ × ℝ :=
  (a0b / (0.5 * reg + b0),
   a1b / (0.5 * res2 + b1),
   (a0b / (0.5 * reg + b0)) / (a1b / (0.5 * res2 + b1)) * (2 * a1b / res2) ^ d)

/-- `sol2max = np.max(sol**2)` (line 536).  Folding `max` with base `0` over
the squares agrees with `np.max` for a nonempty vector since squares are
nonnegative. -/
def sol2max (nbs : ℕ) (sol : Fin nbs → ℝ) : ℝ :=
  (List.ofFn (fun i => (sol i) ^ 2)).foldr max 0

/-- The fixed inputs of one backend call: the normalized system matrices
and the keyword hyperparameters (`conv_crit, a0, b0, a1, b1, d, conv_reg,
nbs_fixed`).  `maxiter` is deliberately not here: the source accepts it as
an argument of every backend but never reads it, so the wrappers below
take it as a separate (unused) argument, mirroring the source. -/
structure AugTikhoParams (nchan nbs : ℕ) where
  Tn : Matrix (Fin nchan) (Fin nbs) ℝ
  TTn : Matrix (Fin nbs) (Fin nbs) ℝ
  Tyn : Fin nbs → ℝ
  R : Matrix (Fin nbs) (Fin nbs) ℝ
  yn : Fin nchan → ℝ
  conv_crit : ℝ
  a0 : ℝ
  b0 : ℝ
  a1 : ℝ
  b1 : ℝ
  d : ℝ
  conv_reg : Bool
  nbs_fixed : Bool

/-- The mutable state of the backend iteration: the Python locals
`sol0, mu0, conv, niter, mu1` (initialized before the loop) together with
the per-iteration values `sol, chi2n, reg, tau, lamb` that the backend
returns after the loop, and the backend-specific solver state (the
`factor` object of the sparse Cholesky variant; `Unit` elsewhere). -/
@[ext]
structure AugTikhoState (nbs : ℕ) (S : Type) where
  sol0 : Fin nbs → ℝ
  mu0 : ℝ
  conv : ℝ
  niter : ℕ
  mu1 : ℝ
  sol : Fin nbs → ℝ
  chi2n : ℝ
  reg : ℝ
  tau : ℝ
  lamb : ℝ
  solverState : S

/-- State before the loop (lines 493-495): `conv = 0.`, `niter = 0`,
`mu1 = 0.`; `sol0` and `mu0` are the arguments.  The fields holding
per-iteration values are initialized with junk (`sol0` resp. `0`): the
loop always runs before they are returned. -/
def initState {nbs : ℕ} {S : Type} (sol0 : Fin nbs → ℝ) (mu0 : ℝ) (s : S) :
    AugTikhoState nbs S :=
  { sol0 := sol0, mu0 := mu0, conv := 0, niter := 0, mu1 := 0,
    sol := sol0, chi2n := 0, reg := 0, tau := 0, lamb := 0, solverState := s }

/-- One iteration of the augmented-Tikhonov loop (lines 509-550 of
`inv_linear_augTikho_v1`; the same body appears in the other three
backends, with the linear solve step supplied by `solve`):
solve `(TTn + mu0*R) sol = Tyn`, compute `res2`, `chi2n`, `reg`, update
`lamb`, `tau`, `mu1`, compute `conv`, then `sol0[:] = sol`, `mu0 = mu1`,
`niter += 1`. -/
def augTikhoStep {nchan nbs : ℕ} {S : Type} (p : AugTikhoParams nchan nbs)
    (solve : S → Matrix (Fin nbs) (Fin nbs) ℝ → (Fin nbs → ℝ) →
      (Fin nbs → ℝ) × S)
    (st : AugTikhoState nbs S) : AugTikhoState nbs S :=
  let solres := solve st.solverState (p.TTn + st.mu0 • p.R) p.Tyn
  let sol := solres.1
  let res2 := ∑ i, (p.Tn.mulVec sol i - p.yn i) ^ 2
  let chi2n := res2 / (nchan : ℝ)
  let reg := sol ⬝ᵥ p.R.mulVec sol
  let ltm := augTikhoUpdate (a0bis p.a0 nbs p.nbs_fixed) p.b0
    (a1bis p.a1 nchan) p.b1 p.d res2 reg
  let conv :=
    if p.conv_reg then |ltm.2.2 - st.mu0| / ltm.2.2
    else Real.sqrt ((∑ i, (sol i - st.sol0 i) ^ 2 /
      max ((sol i) ^ 2) (0.001 * sol2max nbs sol)) / (nbs : ℝ))
  { sol0 := sol, mu0 := ltm.2.2, conv := conv, niter := st.niter + 1,
    mu1 := ltm.2.2, sol := sol, chi2n := chi2n, reg := reg,
    tau := ltm.2.1, lamb := ltm.1, solverState := solres.2 }

/-- The backend loop `while niter < 2 or conv > conv_crit:` (line 509),
with fuel: `none` means the loop was still running after `fuel`
iterations. -/
def augTikhoRun {nchan nbs : ℕ} {S : Type} (p : AugTikhoParams nchan nbs)
    (solve : S → Matrix (Fin nbs) (Fin nbs) ℝ → (Fin nbs → ℝ) →
      (Fin nbs → ℝ) × S) :
    ℕ → AugTikhoState nbs S → Option (AugTikhoState nbs S)
  | 0, st =>
      if st.niter < 2 ∨ p.conv_crit < st.conv then none else some st
  | fuel + 1, st =>
      if st.niter < 2 ∨ p.conv_crit < st.conv then
        augTikhoRun p solve fuel (augTikhoStep p solve st)
      else some st

/-- What a backend call hands back to the time loop: the final iteration
state (whose `sol0` field is the final content of the caller's `sol0`
buffer, mutated in place by `sol0[:] = sol[:]`, and whose `solverState`
is the final factor object), together with the solver state that the call
started from (`factor = None` at line 837 for the sparse Cholesky
backend). -/
structure BackendResult (nbs : ℕ) (S : Type) where
  state : AugTikhoState nbs S
  factorStart : S

/-- Backend `inv_linear_augTikho_v1` (lines 456-552): the linear solve is
`scipy.linalg.solve(TTn + mu0*R, Tyn, assume_a='pos')`, an external call
modelled by the oracle `scplin_solve`.  `maxiter` is accepted and unused,
as in the source. -/
def inv_linear_augTikho_v1 {nchan nbs : ℕ} (p : AugTikhoParams nchan nbs)
    (scplin_solve : Matrix (Fin nbs) (Fin nbs) ℝ → (Fin nbs → ℝ) →
      (Fin nbs → ℝ))
    (sol0 : Fin nbs → ℝ) (mu0 : ℝ) (maxiter : ℕ) (fuel : ℕ) :
    Option (BackendResult nbs Unit) :=
  (augTikhoRun p (fun s A b => (scplin_solve A b, s)) fuel
    (initState sol0 mu0 ())).map (fun st => ⟨st, ()⟩)

/-- Backend `inv_linear_augTikho_v1_sparse` (lines 555-645): identical
body, the solve is `scipy.sparse.linalg.spsolve(TTn + mu0*R, Tyn)`. -/
def inv_linear_augTikho_v1_sparse {nchan nbs : ℕ}
    (p : AugTikhoParams nchan nbs)
    (spsolve : Matrix (Fin nbs) (Fin nbs) ℝ → (Fin nbs → ℝ) →
      (Fin nbs → ℝ))
    (sol0 : Fin nbs → ℝ) (mu0 : ℝ) (maxiter : ℕ) (fuel : ℕ) :
    Option (BackendResult nbs Unit) :=
  (augTikhoRun p (fun s A b => (spsolve A b, s)) fuel
    (initState sol0 mu0 ())).map (fun st => ⟨st, ()⟩)

/-- Backend `inv_linear_augTikho_chol` (lines 648-770): try a dense
Cholesky factorization and `cho_solve` (oracle `cholesky_solve`, `none`
models the `except` branch being taken), falling back to
`scipy.linalg.solve(..., assume_a='sym')` (oracle `sym_solve`) for that
iteration only. -/
def inv_linear_augTikho_chol {nchan nbs : ℕ} (p : AugTikhoParams nchan nbs)
    (cholesky_solve : Matrix (Fin nbs) (Fin nbs) ℝ → (Fin nbs → ℝ) →
      Option (Fin nbs → ℝ))
    (sym_solve : Matrix (Fin nbs) (Fin nbs) ℝ → (Fin nbs → ℝ) →
      (Fin nbs → ℝ))
    (sol0 : Fin nbs → ℝ) (mu0 : ℝ) (maxiter : ℕ) (fuel : ℕ) :
    Option (BackendResult nbs Unit) :=
  (augTikhoRun p
    (fun s A b => ((cholesky_solve A b).getD (sym_solve A b), s)) fuel
    (initState sol0 mu0 ())).map (fun st => ⟨st, ()⟩)

/-- The solve step of the sparse Cholesky backend (lines 839-861): if no
factor exists yet, build one with `sksparse.cholmod.cholesky` (oracle
`cholmod_cholesky`, `none` = the factorization raised); else update the
existing factor in place with `factor.cholesky_inplace` (oracle
`cholesky_inplace`, `none` = raised, old factor kept); solve with
`factor.solve_A` (oracle `solve_A`); on any failure fall back to
`scipy.sparse.linalg.spsolve` for this iteration. -/
def cholSparseSolve {nbs : ℕ} {F : Type}
    (cholmod_cholesky : Matrix (Fin nbs) (Fin nbs) ℝ → Option F)
    (cholesky_inplace : F → Matrix (Fin nbs) (Fin nbs) ℝ → Option F)
    (solve_A : F → (Fin nbs → ℝ) → (Fin nbs → ℝ))
    (spsolve : Matrix (Fin nbs) (Fin nbs) ℝ → (Fin nbs → ℝ) →
      (Fin nbs → ℝ)) :
    Option F → Matrix (Fin nbs) (Fin nbs) ℝ → (Fin nbs → ℝ) →
      (Fin nbs → ℝ) × Option F
  | none, A, b =>
      match cholmod_cholesky A with
      | some f => (solve_A f b, some f)
      | none => (spsolve A b, none)
  | some f, A, b =>
      match cholesky_inplace f A with
      | some f2 => (solve_A f2 b, some f2)
      | none => (spsolve A b, some f)

/-- Backend `inv_linear_augTikho_chol_sparse` (lines 773-894): the factor
object starts as `None` at every call (`factor = None`, line 837) and is
threaded through the iterations of this call only. -/
def inv_linear_augTikho_chol_sparse {nchan nbs : ℕ} {F : Type}
    (p : AugTikhoParams nchan nbs)
    (cholmod_cholesky : Matrix (Fin nbs) (Fin nbs) ℝ → Option F)
    (cholesky_inplace : F → Matrix (Fin nbs) (Fin nbs) ℝ → Option F)
    (solve_A : F → (Fin nbs → ℝ) → (Fin nbs → ℝ))
    (spsolve : Matrix (Fin nbs) (Fin nbs) ℝ → (Fin nbs → ℝ) →
      (Fin nbs → ℝ))
    (sol0 : Fin nbs → ℝ) (mu0 : ℝ) (maxiter : ℕ) (fuel : ℕ) :
    Option (BackendResult nbs (Option F)) :=
  (augTikhoRun p
    (cholSparseSolve cholmod_cholesky cholesky_inplace solve_A spsolve)
    fuel (initState sol0 mu0 none)).map (fun st => ⟨st, none⟩)

/-! ## The time loop `_compute_inv_loop` (lines 318-447)

The driver iterates over the `nt` time samples.  `sigma` has
`nsig = sigma.shape[0]` rows (`nsig ∈ {1, nt}` in practice).  Per sample
`ii` it recomputes `Tn`/`TTn` from `sigma[ii, :]` when `nsig > 1`
(lines 366-368 sparse / 412-414 dense; the pre-built `Tn`/`TTn` of
`compute_inversions`, built from the time-averaged sigma, are the loop's
starting values), computes `Tyn = Tn.T @ data_n[ii]`, calls the backend,
and then performs the post-step of lines 440-443: the caller's `sol0`
buffer already holds the backend's final `sol0` content (the backends
assign `sol0[:] = sol[:]` through the shared numpy buffer), the
`if chain: sol0[:] = sol[ii,:]` assignment, and `mu0 = mu[ii]`.

Each `SampleRecord` holds the per-sample outputs written into
`sol, mu, chi2n, regularity, niter, spec` plus instrumentation fields
recording the values that the claims are about: the `sol0` actually
handed to the backend, the `Tn`/`TTn` actually used, and the solver
state at the start and at the end of the backend call. -/

/-- Per-sample outputs and observed intermediates of one iteration of the
time loop. -/
structure SampleRecord (nchan nbs : ℕ) (S : Type) where
  sol0Handed : Fin nbs → ℝ
  TnUsed : Matrix (Fin nchan) (Fin nbs) ℝ
  TTnUsed : Matrix (Fin nbs) (Fin nbs) ℝ
  factorStart : S
  factorEnd : S
  sol : Fin nbs → ℝ
  mu : ℝ
  chi2n : ℝ
  regularity : ℝ
  niter : ℕ
  tau : ℝ
  lamb : ℝ

/-- The `Tn` used at sample `ii` in the dense branch (lines 412-413):
recomputed as `matrix / sigma[ii, :][:, None]` when `sigma.shape[0] > 1`,
otherwise the incoming buffer is left unchanged. -/
def loopTnDense {nchan nbs : ℕ} (matrix : Matrix (Fin nchan) (Fin nbs) ℝ)
    (nsig : ℕ) (sigma : ℕ → Fin nchan → ℝ) (ii : ℕ)
    (Tn : Matrix (Fin nchan) (Fin nbs) ℝ) :
    Matrix (Fin nchan) (Fin nbs) ℝ :=
  if 1 < nsig then (fun r c => matrix r c / sigma ii r) else Tn

/-- The `Tn` used at sample `ii` in the sparse branch (lines 366-367):
`Tn.data = diags(1/sigma[ii]).dot(matrix).data` when
`sigma.shape[0] > 1`. -/
def loopTnSparse {nchan nbs : ℕ} (matrix : Matrix (Fin nchan) (Fin nbs) ℝ)
    (nsig : ℕ) (sigma : ℕ → Fin nchan → ℝ) (ii : ℕ)
    (Tn : Matrix (Fin nchan) (Fin nbs) ℝ) :
    Matrix (Fin nchan) (Fin nbs) ℝ :=
  if 1 < nsig then (fun r c => (1 / sigma ii r) * matrix r c) else Tn

/-- The `TTn` used at sample `ii` (lines 368 / 414): recomputed as
`Tn.T @ Tn` from the `Tn` of this sample when `sigma.shape[0] > 1`,
otherwise the incoming buffer. -/
def loopTTn {nchan nbs : ℕ} (nsig : ℕ)
    (Tn2 : Matrix (Fin nchan) (Fin nbs) ℝ)
    (TTn : Matrix (Fin nbs) (Fin nbs) ℝ) :
    Matrix (Fin nbs) (Fin nbs) ℝ :=
  if 1 < nsig then Tn2ᵀ * Tn2 else TTn

/-- Dense branch of `_compute_inv_loop` (lines 403-447).  Arguments after
`func`: current sample index `ii`, remaining sample count, current
`Tn`, `TTn` buffers, current `sol0` buffer content, current `mu0`. -/
def computeInvLoopDense {nchan nbs : ℕ} {S : Type}
    (matrix : Matrix (Fin nchan) (Fin nbs) ℝ)
    (nsig : ℕ) (sigma : ℕ → Fin nchan → ℝ)
    (data_n : ℕ → Fin nchan → ℝ) (chain : Bool)
    (func : Matrix (Fin nchan) (Fin nbs) ℝ → Matrix (Fin nbs) (Fin nbs) ℝ →
      (Fin nbs → ℝ) → (Fin nchan → ℝ) → (Fin nbs → ℝ) → ℝ →
      Option (BackendResult nbs S)) :
    ℕ → ℕ → Matrix (Fin nchan) (Fin nbs) ℝ →
    Matrix (Fin nbs) (Fin nbs) ℝ → (Fin nbs → ℝ) → ℝ →
    Option (List (SampleRecord nchan nbs S))
  | _, 0, _, _, _, _ => some []
  | ii, nrem + 1, Tn, TTn, sol0, mu0 =>
      -- lines 412-414: `if sigma.shape[0] > 1: Tn[...] = matrix/sigma[ii][:,None]; TTn[...] = Tn.T @ Tn`
      let Tn2 := loopTnDense matrix nsig sigma ii Tn
      let TTn2 := loopTTn nsig Tn2 TTn
      -- line 416: `Tyn[:] = Tn.T.dot(data_n[ii, :])`
      let Tyn := Tn2ᵀ.mulVec (data_n ii)
      (func Tn2 TTn2 Tyn (data_n ii) sol0 mu0).bind (fun res =>
        -- the backend mutated the shared `sol0` buffer: it now holds the
        -- backend's final `sol0` content (`res.state.sol0`); then
        -- lines 441-443: `if chain: sol0[:] = sol[ii, :]` and `mu0 = mu[ii]`
        (computeInvLoopDense matrix nsig sigma data_n chain func (ii + 1)
            nrem Tn2 TTn2
            (if chain then res.state.sol else res.state.sol0)
            res.state.mu1).map (fun rest =>
          { sol0Handed := sol0, TnUsed := Tn2, TTnUsed := TTn2,
            factorStart := res.factorStart,
            factorEnd := res.state.solverState,
            sol := res.state.sol, mu := res.state.mu1,
            chi2n := res.state.chi2n, regularity := res.state.reg,
            niter := res.state.niter, tau := res.state.tau,
            lamb := res.state.lamb } :: rest))

/-- Sparse branch of `_compute_inv_loop` (lines 356-401).  Lines 366-368
assign `Tn.data = diags(1/sigma[ii]).dot(matrix).data`, i.e. entrywise
`(1/sigma[ii, r]) * matrix[r, c]`, and `TTn.data = (Tn.T @ Tn).data`. -/
def computeInvLoopSparse {nchan nbs : ℕ} {S : Type}
    (matrix : Matrix (Fin nchan) (Fin nbs) ℝ)
    (nsig : ℕ) (sigma : ℕ → Fin nchan → ℝ)
    (data_n : ℕ → Fin nchan → ℝ) (chain : Bool)
    (func : Matrix (Fin nchan) (Fin nbs) ℝ → Matrix (Fin nbs) (Fin nbs) ℝ →
      (Fin nbs → ℝ) → (Fin nchan → ℝ) → (Fin nbs → ℝ) → ℝ →
      Option (BackendResult nbs S)) :
    ℕ → ℕ → Matrix (Fin nchan) (Fin nbs) ℝ →
    Matrix (Fin nbs) (Fin nbs) ℝ → (Fin nbs → ℝ) → ℝ →
    Option (List (SampleRecord nchan nbs S))
  | _, 0, _, _, _, _ => some []
  | ii, nrem + 1, Tn, TTn, sol0, mu0 =>
      let Tn2 := loopTnSparse matrix nsig sigma ii Tn
      let TTn2 := loopTTn nsig Tn2 TTn
      let Tyn := Tn2ᵀ.mulVec (data_n ii)
      (func Tn2 TTn2 Tyn (data_n ii) sol0 mu0).bind (fun res =>
        (computeInvLoopSparse matrix nsig sigma data_n chain func (ii + 1)
            nrem Tn2 TTn2
            (if chain then res.state.sol else res.state.sol0)
            res.state.mu1).map (fun rest =>
          { sol0Handed := sol0, TnUsed := Tn2, TTnUsed := TTn2,
            factorStart := res.factorStart,
            factorEnd := res.state.solverState,
            sol := res.state.sol, mu := res.state.mu1,
            chi2n := res.state.chi2n, regularity := res.state.reg,
            niter := res.state.niter, tau := res.state.tau,
            lamb := res.state.lamb } :: rest))

/-! ## Regularization selector and orchestrator head (lines 96-104) -/

/-- Lines 96-104 of `compute_inversions`: map the operator name to the
regularization matrix `R` by summing precomputed operator components, or
raise `Exception('unknown operator!')`. -/
def regularizationR {n : ℕ} (operator : String)
    (opmat : ℕ → Matrix (Fin n) (Fin n) ℝ) :
    Except String (Matrix (Fin n) (Fin n) ℝ) :=
  if operator = "D0N2" then Except.ok (opmat 0)
  else if operator = "D1N2" then Except.ok (opmat 0 + opmat 1)
  else if operator = "D2N2" then Except.ok (opmat 0 + opmat 1)
  else Except.error "unknown operator!"

/-- The selector runs before the time loop starts: `compute_inversions`
computes `R` at lines 96-104 and only reaches `_compute_inv_loop`
(line 185) afterwards.  `loopFn` stands for everything downstream that
consumes `R`; an unknown operator raises before it is ever invoked. -/
def computeInversionsSelect {n : ℕ} {α : Type} (operator : String)
    (opmat : ℕ → Matrix (Fin n) (Fin n) ℝ)
    (loopFn : Matrix (Fin n) (Fin n) ℝ → α) : Except String α :=
  (regularizationR operator opmat).map loopFn

/-! ## Crop scatter / result formatting (lines 220-229, 308-309)

Lines 226-229:
```
cropbsflat = cropbs.ravel(order='F')
iR = np.tile(np.arange(0, shapebs[0]), shapebs[1])[cropbsflat]
iZ = np.repeat(np.arange(0, shapebs[1]), shapebs[0])[cropbsflat]
sol_full[:, iR, iZ] = sol
```
For the Fortran-order flat index `k` of an `(n0, n1)` grid the row is
`k % n0` and the column is `k / n0`; `np.tile(np.arange(n0), n1)[k]`
is `k % n0` and `np.repeat(np.arange(n1), n0)[k]` is `k / n0`.  The
`j`-th kept flat index receives `sol[j]`, and `j` is the number of kept
flat indices below it. -/

/-- `cropbs.ravel(order='F')` as a predicate on flat indices: flat index
`k` corresponds to grid cell `(k % n0, k / n0)`. -/
def cropMaskFlat (n0 : ℕ) (cropbs : ℕ → ℕ → Bool) : ℕ → Bool :=
  fun k => cropbs (k % n0) (k / n0)

/-- The kept Fortran-order flat indices, in increasing order. -/
def cropKeptIdx (n0 n1 : ℕ) (cropbs : ℕ → ℕ → Bool) : List ℕ :=
  (List.range (n0 * n1)).filter (cropMaskFlat n0 cropbs)

/-- Position of kept flat index `k` within the kept list: the number of
kept flat indices strictly below `k`. -/
def rankBefore (n0 : ℕ) (cropbs : ℕ → ℕ → Bool) (k : ℕ) : ℕ :=
  ((List.range k).filter (cropMaskFlat n0 cropbs)).length

/-- `sol_full[iR, iZ] = sol` (line 229, one time sample): grid cell
`(r, c)` receives `sol[j]` when its flat index `c*n0 + r` is the `j`-th
kept index, and keeps the `np.zeros` fill otherwise. -/
def scatterSol (n0 n1 : ℕ) (cropbs : ℕ → ℕ → Bool) (sol : List ℝ) :
    ℕ → ℕ → ℝ :=
  fun r c =>
    if r < n0 ∧ c < n1 ∧ cropMaskFlat n0 cropbs (c * n0 + r) then
      sol.getD (rankBefore n0 cropbs (c * n0 + r)) 0
    else 0

/-- Gathering the masked entries back from the full grid in the same
column-major order. -/
def gatherSol (n0 n1 : ℕ) (cropbs : ℕ → ℕ → Bool) (full : ℕ → ℕ → ℝ) :
    List ℝ :=
  (cropKeptIdx n0 n1 cropbs).map (fun k => full (k % n0) (k / n0))

/-- The tail of `compute_inversions` (lines 220-309): `sol_full` is
assigned only inside the `if crop is True:` branch (lines 221-229); the
`store is True` branch stores into the collection and returns `None`
(Python's implicit return); otherwise line 309 executes
`return sol_full, mu, chi2n, regularity, niter, spec`, which raises a
Python unbound-local error when `crop` was false. -/
def computeInversionsFormat (crop store : Bool) (n0 n1 : ℕ)
    (cropbs : ℕ → ℕ → Bool) (sol : List ℝ)
    (mu chi2n regularity : List ℝ) (niter : List ℕ) :
    Except String
      (Option ((ℕ → ℕ → ℝ) × List ℝ × List ℝ × List ℝ × List ℕ)) :=
  let sol_full : Option (ℕ → ℕ → ℝ) :=
    if crop then some (scatterSol n0 n1 cropbs sol) else none
  if store then Except.ok none
  else
    match sol_full with
    | some sf => Except.ok (some (sf, mu, chi2n, regularity, niter))
    | none =>
        Except.error
          "UnboundLocalError: local variable 'sol_full' referenced before assignment"

/-! ## Concrete instances used for evaluation

Two tiny instances with one channel and one basis function.  `pA` has
unit data (`yn = 1`, so `res2 = 1 > 0`) and exponent `d = 37`; `pB` has
zero data and `d = 0`.  In both, the solve oracle returns the zero
vector, so the fixed point is reached after the mandatory two
iterations.  `c9P` is the instance used for the unbounded-iteration
construction of C9: the oracle inspects the system matrix
`TTn + mu0*R = mu0` and keeps the regularization strength growing
(`mu ← 4*mu²`) until it passes the threshold `c9T M`, forcing more than
`M` iterations before convergence. -/

def pA : AugTikhoParams 1 1 :=
  { Tn := fun _ _ => 0, TTn := fun _ _ => 0, Tyn := fun _ => 0,
    R := fun _ _ => 0, yn := fun _ => 1,
    conv_crit := 1 / 2, a0 := 1, b0 := 1, a1 := 1, b1 := 1 / 2, d := 37,
    conv_reg := true, nbs_fixed := true }

def pB : AugTikhoParams 1 1 :=
  { Tn := fun _ _ => 0, TTn := fun _ _ => 0, Tyn := fun _ => 0,
    R := fun _ _ => 0, yn := fun _ => 0,
    conv_crit := 1 / 2, a0 := 1, b0 := 1, a1 := 1, b1 := 1 / 2, d := 0,
    conv_reg := true, nbs_fixed := true }

def solveZero :
    Unit → Matrix (Fin 1) (Fin 1) ℝ → (Fin 1 → ℝ) → (Fin 1 → ℝ) × Unit :=
  fun s A b => (fun _ => 0, s)

/-- The regularization-strength trajectory of the C9 construction:
`muSeq 0 = 1` and `muSeq (k+1) = 4 * (muSeq k)^2`. -/
def muSeq (k : ℕ) : ℝ := 4 ^ (2 ^ k - 1)

/-- Threshold at which the C9 oracle stops the growth of `mu`. -/
def c9T (M : ℕ) : ℝ := muSeq (M + 2)

/-- The constant solution returned by the C9 oracle beyond the
threshold; `c9sStar M ^ (-2) = 4 ^ (2 ^ (M+2))`. -/
def c9sStar (M : ℕ) : ℝ := ((2 : ℝ) ^ (2 ^ (M + 2)))⁻¹

/-- The C9 solve oracle: reads `mu0` off the 1-by-1 system matrix
`TTn + mu0*R = mu0` and answers `1/(2*mu0)` while `mu0` is below the
threshold (making the next `mu` equal `4*mu0²`), and the constant
`c9sStar M` beyond it (making the next `mu` equal `4^(2^(M+2))`). -/
def c9scplin (M : ℕ) :
    Matrix (Fin 1) (Fin 1) ℝ → (Fin 1 → ℝ) → (Fin 1 → ℝ) :=
  fun A b =>
    fun _ => if A 0 0 < c9T M then 1 / (2 * A 0 0) else c9sStar M

/-- The C9 oracle in the stateless-solver shape used by `augTikhoRun`. -/
def c9solve (M : ℕ) :
    Unit → Matrix (Fin 1) (Fin 1) ℝ → (Fin 1 → ℝ) → (Fin 1 → ℝ) × Unit :=
  fun s A b => (c9scplin M A b, s)

/-- The regularization strength the C9 run settles at:
`4 ^ (2 ^ (M+2)) = 4 * c9T M = (c9sStar M)⁻¹²`. -/
def c9Mu (M : ℕ) : ℝ := 4 ^ 2 ^ (M + 2)

/-- C9 run, state after a below-threshold (growth) iteration that
entered with `mu0 = m` as its `k+1`-st iteration. -/
def c9Raw (m : ℝ) (k : ℕ) : AugTikhoState 1 Unit :=
  { sol0 := fun _ => 1 / (2 * m), mu0 := 4 * m ^ 2,
    conv := |4 * m ^ 2 - m| / (4 * m ^ 2),
    niter := k + 1, mu1 := 4 * m ^ 2,
    sol := fun _ => 1 / (2 * m), chi2n := 0,
    reg := 1 / (4 * m ^ 2), tau := 2, lamb := 8 * m ^ 2,
    solverState := () }

/-- C9 run, state after the first beyond-threshold iteration. -/
def c9StS (M : ℕ) : AugTikhoState 1 Unit :=
  { sol0 := fun _ => c9sStar M, mu0 := c9Mu M,
    conv := |c9Mu M - muSeq (M + 2)| / c9Mu M,
    niter := M + 3, mu1 := c9Mu M, sol := fun _ => c9sStar M, chi2n := 0,
    reg := c9sStar M ^ 2, tau := 2, lamb := 2 * c9Mu M,
    solverState := () }

/-- C9 run, final state: the second beyond-threshold iteration repeats
`mu1 = c9Mu M`, so `conv = 0` and the loop exits with
`niter = M + 4 > M = maxiter`. -/
def c9StF (M : ℕ) : AugTikhoState 1 Unit :=
  { sol0 := fun _ => c9sStar M, mu0 := c9Mu M,
    conv := |c9Mu M - c9Mu M| / c9Mu M,
    niter := M + 4, mu1 := c9Mu M, sol := fun _ => c9sStar M, chi2n := 0,
    reg := c9sStar M ^ 2, tau := 2, lamb := 2 * c9Mu M,
    solverState := () }

/-- Hyperparameters of the C9 construction: `a0bis = 1`, `a1bis = 1`,
`b0 = 0`, `b1 = 1/2`, `d = 0`, `conv_crit = 1/2`, `R = 1`. -/
def c9P : AugTikhoParams 1 1 :=
  { Tn := fun _ _ => 0, TTn := fun _ _ => 0, Tyn := fun _ => 0,
    R := fun _ _ => 1, yn := fun _ => 0,
    conv_crit := 1 / 2, a0 := -598, b0 := 0, a1 := 3 / 2, b1 := 1 / 2,
    d := 0, conv_reg := true, nbs_fixed := true }

/-! ## Generic facts about the backend loop -/

/-- A state returned by the loop failed the loop guard: it has `niter ≥ 2`
and `conv ≤ conv_crit`. -/
lemma augTikhoRun_exit {nchan nbs : ℕ} {S : Type}
    (p : AugTikhoParams nchan nbs)
    (solve : S → Matrix (Fin nbs) (Fin nbs) ℝ → (Fin nbs → ℝ) →
      (Fin nbs → ℝ) × S) :
    ∀ (fuel : ℕ) (st st2 : AugTikhoState nbs S),
      augTikhoRun p solve fuel st = some st2 →
      2 ≤ st2.niter ∧ st2.conv ≤ p.conv_crit := by
  intro fuel
  induction fuel with
  | zero =>
      intro st st2 h
      by_cases hg : st.niter < 2 ∨ p.conv_crit < st.conv
      · rw [augTikhoRun, if_pos hg] at h
        exact absurd h (by simp)
      · rw [augTikhoRun, if_neg hg] at h
        push_neg at hg
        cases h
        exact hg
  | succ n ih =>
      intro st st2 h
      by_cases hg : st.niter < 2 ∨ p.conv_crit < st.conv
      · rw [augTikhoRun, if_pos hg] at h
        exact ih _ _ h
      · rw [augTikhoRun, if_neg hg] at h
        push_neg at hg
        cases h
        exact hg

/-- A state returned by the loop is either the starting state or the
result of one `augTikhoStep`. -/
lemma augTikhoRun_reached {nchan nbs : ℕ} {S : Type}
    (p : AugTikhoParams nchan nbs)
    (solve : S → Matrix (Fin nbs) (Fin nbs) ℝ → (Fin nbs → ℝ) →
      (Fin nbs → ℝ) × S) :
    ∀ (fuel : ℕ) (st st2 : AugTikhoState nbs S),
      augTikhoRun p solve fuel st = some st2 →
      st2 = st ∨ ∃ s, st2 = augTikhoStep p solve s := by
  intro fuel
  induction fuel with
  | zero =>
      intro st st2 h
      by_cases hg : st.niter < 2 ∨ p.conv_crit < st.conv
      · rw [augTikhoRun, if_pos hg] at h
        exact absurd h (by simp)
      · rw [augTikhoRun, if_neg hg] at h
        cases h
        exact Or.inl rfl
  | succ n ih =>
      intro st st2 h
      by_cases hg : st.niter < 2 ∨ p.conv_crit < st.conv
      · rw [augTikhoRun, if_pos hg] at h
        rcases ih _ _ h with h1 | h1
        · exact Or.inr ⟨st, h1⟩
        · exact Or.inr h1
      · rw [augTikhoRun, if_neg hg] at h
        cases h
        exact Or.inl rfl

/-- A state returned by a run started from `initState` is the result of a
step (the initial state has `niter = 0` and cannot pass the guard). -/
lemma augTikhoRun_init_reached {nchan nbs : ℕ} {S : Type}
    (p : AugTikhoParams nchan nbs)
    (solve : S → Matrix (Fin nbs) (Fin nbs) ℝ → (Fin nbs → ℝ) →
      (Fin nbs → ℝ) × S)
    (fuel : ℕ) (sol0 : Fin nbs → ℝ) (mu0 : ℝ) (s : S)
    (st2 : AugTikhoState nbs S)
    (h : augTikhoRun p solve fuel (initState sol0 mu0 s) = some st2) :
    ∃ st, st2 = augTikhoStep p solve st := by
  rcases augTikhoRun_reached p solve fuel _ st2 h with h1 | h1
  · exfalso
    have h2 := (augTikhoRun_exit p solve fuel _ st2 h).1
    rw [h1] at h2
    simp [initState] at h2
  · exact h1

/-- The backends' in-loop `sol0[:] = sol[:]` makes the final content of
the caller's `sol0` buffer equal to the returned solution. -/
lemma augTikhoRun_sol0_eq_sol {nchan nbs : ℕ} {S : Type}
    (p : AugTikhoParams nchan nbs)
    (solve : S → Matrix (Fin nbs) (Fin nbs) ℝ → (Fin nbs → ℝ) →
      (Fin nbs → ℝ) × S)
    (fuel : ℕ) (sol0 : Fin nbs → ℝ) (mu0 : ℝ) (s : S)
    (st2 : AugTikhoState nbs S)
    (h : augTikhoRun p solve fuel (initState sol0 mu0 s) = some st2) :
    st2.sol0 = st2.sol := by
  rcases augTikhoRun_init_reached p solve fuel sol0 mu0 s st2 h with ⟨st, rfl⟩
  rfl

/-! ## Evaluation lemmas for the concrete instances -/

/-- One step of the `pA` instance: `res2 = 1`, `reg = 0`, `lamb = 600`,
`tau = 1/2`, `mu1 = 1200`. -/
lemma augTikhoStepA (st : AugTikhoState 1 Unit) :
    augTikhoStep pA solveZero st =
      { sol0 := fun _ => 0, mu0 := 1200, conv := |1200 - st.mu0| / 1200,
        niter := st.niter + 1, mu1 := 1200, sol := fun _ => 0,
        chi2n := 1, reg := 0, tau := 1 / 2, lamb := 600,
        solverState := () } := by
  unfold augTikhoStep solveZero pA
  simp only [augTikhoUpdate, a0bis, a1bis, if_true]
  norm_num [Matrix.mulVec, dotProduct, Fin.sum_univ_one, Real.one_rpow]

/-- The `pA` instance converges in exactly the two mandatory
iterations. -/
lemma augTikhoRunA (sol0 : Fin 1 → ℝ) (mu0 : ℝ) :
    augTikhoRun pA solveZero 2 (initState sol0 mu0 ()) =
      some { sol0 := fun _ => 0, mu0 := 1200, conv := 0, niter := 2,
             mu1 := 1200, sol := fun _ => 0, chi2n := 1, reg := 0,
             tau := 1 / 2, lamb := 600, solverState := () } := by
  simp only [augTikhoRun, augTikhoStepA]
  norm_num [initState, pA, AugTikhoState.mk.injEq]

/-- The `inv_linear_augTikho_v1` backend on the `pA` instance. -/
lemma invV1RunA (sol0 : Fin 1 → ℝ) (mu0 : ℝ) (maxiter : ℕ) :
    inv_linear_augTikho_v1 pA (fun A b => fun _ => 0) sol0 mu0 maxiter 2 =
      some ⟨{ sol0 := fun _ => 0, mu0 := 1200, conv := 0, niter := 2,
              mu1 := 1200, sol := fun _ => 0, chi2n := 1, reg := 0,
              tau := 1 / 2, lamb := 600, solverState := () }, ()⟩ := by
  unfold inv_linear_augTikho_v1
  exact (congrArg _ (augTikhoRunA sol0 mu0)).trans rfl

/-- The `inv_linear_augTikho_v1_sparse` backend on the `pA` instance. -/
lemma invV1SparseRunA (sol0 : Fin 1 → ℝ) (mu0 : ℝ) (maxiter : ℕ) :
    inv_linear_augTikho_v1_sparse pA (fun A b => fun _ => 0) sol0 mu0
        maxiter 2 =
      some ⟨{ sol0 := fun _ => 0, mu0 := 1200, conv := 0, niter := 2,
              mu1 := 1200, sol := fun _ => 0, chi2n := 1, reg := 0,
              tau := 1 / 2, lamb := 600, solverState := () }, ()⟩ := by
  unfold inv_linear_augTikho_v1_sparse
  exact (congrArg _ (augTikhoRunA sol0 mu0)).trans rfl

/-- The `inv_linear_augTikho_chol` backend on the `pA` instance, with a
Cholesky oracle that succeeds and also returns the zero vector. -/
lemma invCholRunA (sol0 : Fin 1 → ℝ) (mu0 : ℝ) (maxiter : ℕ) :
    inv_linear_augTikho_chol pA (fun A b => some (fun _ => 0))
        (fun A b => fun _ => 0) sol0 mu0 maxiter 2 =
      some ⟨{ sol0 := fun _ => 0, mu0 := 1200, conv := 0, niter := 2,
              mu1 := 1200, sol := fun _ => 0, chi2n := 1, reg := 0,
              tau := 1 / 2, lamb := 600, solverState := () }, ()⟩ := by
  unfold inv_linear_augTikho_chol
  exact (congrArg _ (augTikhoRunA sol0 mu0)).trans rfl

/-- One step of any backend instance over `pB`-style parameters with a
zero-returning solve oracle: `res2 = 0`, `reg = 0`, `lamb = 600`,
`tau = 1`, `mu1 = 600`. -/
lemma augTikhoStepB {S : Type}
    (Tn TTn : Matrix (Fin 1) (Fin 1) ℝ) (Tyn : Fin 1 → ℝ)
    (yn : Fin 1 → ℝ) (hyn : yn = fun _ => 0)
    (solve : S → Matrix (Fin 1) (Fin 1) ℝ → (Fin 1 → ℝ) → (Fin 1 → ℝ) × S)
    (hsolve : ∀ s A b, (solve s A b).1 = fun _ => 0)
    (st : AugTikhoState 1 S) :
    augTikhoStep { pB with Tn := Tn, TTn := TTn, Tyn := Tyn, yn := yn }
        solve st
      = { sol0 := fun _ => 0, mu0 := 600, conv := |600 - st.mu0| / 600,
          niter := st.niter + 1, mu1 := 600, sol := fun _ => 0,
          chi2n := 0, reg := 0, tau := 1, lamb := 600,
          solverState := (solve st.solverState
            (TTn + st.mu0 • pB.R) Tyn).2 } := by
  subst hyn
  unfold augTikhoStep
  simp only [augTikhoUpdate, a0bis, a1bis, hsolve]
  norm_num [Matrix.mulVec, dotProduct, Fin.sum_univ_one, Real.rpow_zero,
    pB]

/-- Any backend instance over `pB`-style parameters with a
zero-returning solve oracle converges in exactly the two mandatory
iterations; the solver state is threaded through both solves. -/
lemma augTikhoRunB {S : Type}
    (Tn TTn : Matrix (Fin 1) (Fin 1) ℝ) (Tyn : Fin 1 → ℝ)
    (yn : Fin 1 → ℝ) (hyn : yn = fun _ => 0)
    (solve : S → Matrix (Fin 1) (Fin 1) ℝ → (Fin 1 → ℝ) → (Fin 1 → ℝ) × S)
    (hsolve : ∀ s A b, (solve s A b).1 = fun _ => 0)
    (sol0 : Fin 1 → ℝ) (mu0 : ℝ) (s : S) :
    augTikhoRun { pB with Tn := Tn, TTn := TTn, Tyn := Tyn, yn := yn }
        solve 2 (initState sol0 mu0 s) =
      some { sol0 := fun _ => 0, mu0 := 600, conv := 0, niter := 2,
             mu1 := 600, sol := fun _ => 0, chi2n := 0, reg := 0,
             tau := 1, lamb := 600,
             solverState := (solve (solve s TTn Tyn).2 TTn Tyn).2 } := by
  subst hyn
  have hA : ∀ m : ℝ, TTn + m • pB.R = TTn := by
    intro m
    funext i j
    simp [pB, Matrix.add_apply]
  simp only [augTikhoRun, augTikhoStepB Tn TTn Tyn _ rfl solve hsolve, hA]
  norm_num [initState, pB, AugTikhoState.mk.injEq]

/-- The `inv_linear_augTikho_v1` backend over `pB`-style parameters with
a zero-returning dense solve oracle. -/
lemma invV1RunB (Tn TTn : Matrix (Fin 1) (Fin 1) ℝ) (Tyn : Fin 1 → ℝ)
    (yn : Fin 1 → ℝ) (hyn : yn = fun _ => 0) (sol0 : Fin 1 → ℝ) (mu0 : ℝ)
    (maxiter : ℕ) :
    inv_linear_augTikho_v1
        { pB with Tn := Tn, TTn := TTn, Tyn := Tyn, yn := yn }
        (fun A b => fun _ => 0) sol0 mu0 maxiter 2 =
      some ⟨{ sol0 := fun _ => 0, mu0 := 600, conv := 0, niter := 2,
              mu1 := 600, sol := fun _ => 0, chi2n := 0, reg := 0,
              tau := 1, lamb := 600, solverState := () }, ()⟩ := by
  unfold inv_linear_augTikho_v1
  rw [augTikhoRunB Tn TTn Tyn yn hyn _ (fun s A b => rfl) sol0 mu0 ()]
  rfl

/-- The sparse-Cholesky backend over `pB`-style parameters with counting
factor oracles: every call starts from `factor = None`, builds `some c`
in its first iteration and updates it in place to `some (c+1)` in its
second. -/
lemma invCholSparseRunB (Tn TTn : Matrix (Fin 1) (Fin 1) ℝ)
    (Tyn : Fin 1 → ℝ) (yn : Fin 1 → ℝ) (hyn : yn = fun _ => 0)
    (sol0 : Fin 1 → ℝ) (mu0 : ℝ) (maxiter c : ℕ) :
    inv_linear_augTikho_chol_sparse (F := ℕ)
        { pB with Tn := Tn, TTn := TTn, Tyn := Tyn, yn := yn }
        (fun A => some c) (fun f A => some (f + 1))
        (fun f b => fun _ => 0) (fun A b => fun _ => 0) sol0 mu0 maxiter
        2 =
      some ⟨{ sol0 := fun _ => 0, mu0 := 600, conv := 0, niter := 2,
              mu1 := 600, sol := fun _ => 0, chi2n := 0, reg := 0,
              tau := 1, lamb := 600, solverState := some (c + 1) },
            none⟩ := by
  unfold inv_linear_augTikho_chol_sparse
  rw [augTikhoRunB Tn TTn Tyn yn hyn _
    (fun s A b => by cases s <;> rfl) sol0 mu0 none]
  rfl

/-- C1: every solver backend that returns does so with `niter ≥ 2`, and
with the convergence variable of its last executed iteration at most
`conv_crit`. -/
theorem claim1_backend_termination :
    (∀ (nchan nbs : ℕ) (p : AugTikhoParams nchan nbs) scplin_solve sol0 mu0
        maxiter fuel r,
      inv_linear_augTikho_v1 p scplin_solve sol0 mu0 maxiter fuel = some r →
      2 ≤ r.state.niter ∧ r.state.conv ≤ p.conv_crit) ∧
    (∀ (nchan nbs : ℕ) (p : AugTikhoParams nchan nbs) spsolve sol0 mu0
        maxiter fuel r,
      inv_linear_augTikho_v1_sparse p spsolve sol0 mu0 maxiter fuel =
        some r →
      2 ≤ r.state.niter ∧ r.state.conv ≤ p.conv_crit) ∧
    (∀ (nchan nbs : ℕ) (p : AugTikhoParams nchan nbs) cholesky_solve
        sym_solve sol0 mu0 maxiter fuel r,
      inv_linear_augTikho_chol p cholesky_solve sym_solve sol0 mu0 maxiter
        fuel = some r →
      2 ≤ r.state.niter ∧ r.state.conv ≤ p.conv_crit) ∧
    (∀ (nchan nbs : ℕ) (F : Type) (p : AugTikhoParams nchan nbs)
        cholmod_cholesky cholesky_inplace solve_A spsolve sol0 mu0 maxiter
        fuel r,
      inv_linear_augTikho_chol_sparse (F := F) p cholmod_cholesky
        cholesky_inplace solve_A spsolve sol0 mu0 maxiter fuel = some r →
      2 ≤ r.state.niter ∧ r.state.conv ≤ p.conv_crit) := by
  refine ⟨?_, ?_, ?_, ?_⟩
  · intro nchan nbs p scplin_solve sol0 mu0 maxiter fuel r h
    rcases Option.map_eq_some'.mp h with ⟨st, hst, hr⟩
    cases hr
    exact augTikhoRun_exit p _ fuel _ st hst
  · intro nchan nbs p spsolve sol0 mu0 maxiter fuel r h
    rcases Option.map_eq_some'.mp h with ⟨st, hst, hr⟩
    cases hr
    exact augTikhoRun_exit p _ fuel _ st hst
  · intro nchan nbs p cholesky_solve sym_solve sol0 mu0 maxiter fuel r h
    rcases Option.map_eq_some'.mp h with ⟨st, hst, hr⟩
    cases hr
    exact augTikhoRun_exit p _ fuel _ st hst
  · intro nchan nbs F p cholmod_cholesky cholesky_inplace solve_A spsolve
      sol0 mu0 maxiter fuel r h
    rcases Option.map_eq_some'.mp h with ⟨st, hst, hr⟩
    cases hr
    exact augTikhoRun_exit p _ fuel _ st hst

/-- Witness for C1: each of the four backends, run on a concrete
one-channel one-basis instance with a zero-returning solve oracle,
returns after exactly the two mandatory iterations with `conv = 0` at
most `conv_crit`. -/
theorem claim1_backend_termination_witness :
    ((2 ≤ 2 ∧ (0 : ℝ) ≤ 1 / 2) ∧ (2 ≤ 2 ∧ (0 : ℝ) ≤ 1 / 2) ∧
     (2 ≤ 2 ∧ (0 : ℝ) ≤ 1 / 2) ∧ (2 ≤ 2 ∧ (0 : ℝ) ≤ 1 / 2)) :=
  ⟨claim1_backend_termination.1 1 1 pA (fun A b => fun _ => 0)
      (fun _ => 0) 1 7 2 _ (invV1RunA (fun _ => 0) 1 7),
   claim1_backend_termination.2.1 1 1 pA (fun A b => fun _ => 0)
      (fun _ => 0) 1 7 2 _ (invV1SparseRunA (fun _ => 0) 1 7),
   claim1_backend_termination.2.2.1 1 1 pA (fun A b => some (fun _ => 0))
      (fun A b => fun _ => 0) (fun _ => 0) 1 7 2 _
      (invCholRunA (fun _ => 0) 1 7),
   claim1_backend_termination.2.2.2 1 1 ℕ
      { pB with
        Tn := (fun _ _ => 0),
        TTn := (fun _ _ => 0),
        Tyn := (fun _ => 0),
        yn := (fun _ => 0) }
      (fun A => some 5) (fun f A => some (f + 1)) (fun f b => fun _ => 0)
      (fun A b => fun _ => 0) (fun _ => 0) 1 7 2 _
      (invCholSparseRunB (fun _ _ => 0) (fun _ _ => 0) (fun _ => 0)
        (fun _ => 0) rfl (fun _ => 0) 1 7 5)⟩

/-! ## C3: operator selection -/

/-- C3: `D0N2` selects `opmat[0]`, `D1N2` and `D2N2` both select
`opmat[0] + opmat[1]`, and any other operator name raises the fatal
`unknown operator!` error before anything downstream of the selector
(in particular the time loop) is invoked. -/
theorem claim3_regularization_selector :
    (∀ (n : ℕ) (opmat : ℕ → Matrix (Fin n) (Fin n) ℝ),
      regularizationR "D0N2" opmat = Except.ok (opmat 0) ∧
      regularizationR "D1N2" opmat = Except.ok (opmat 0 + opmat 1) ∧
      regularizationR "D2N2" opmat = Except.ok (opmat 0 + opmat 1)) ∧
    (∀ (n : ℕ) (opmat : ℕ → Matrix (Fin n) (Fin n) ℝ) (operator : String),
      operator ≠ "D0N2" → operator ≠ "D1N2" → operator ≠ "D2N2" →
      ∀ (α : Type) (loopFn : Matrix (Fin n) (Fin n) ℝ → α),
        computeInversionsSelect operator opmat loopFn =
          Except.error "unknown operator!") := by
  constructor
  · intro n opmat
    refine ⟨rfl, ?_, ?_⟩ <;> simp [regularizationR]
  · intro n opmat operator h0 h1 h2 α loopFn
    simp [computeInversionsSelect, regularizationR, h0, h1, h2, Except.map]

/-- Witness for C3 at the concrete unknown operator name `D5N2`. -/
theorem claim3_regularization_selector_witness :
    computeInversionsSelect "D5N2"
      (fun _ => (0 : Matrix (Fin 1) (Fin 1) ℝ)) (fun R => R) =
      Except.error "unknown operator!" :=
  claim3_regularization_selector.2 1 _ "D5N2" (by decide) (by decide)
    (by decide) _ _

/-! ## C8: the derived prior constants -/

/-- C8 counterexample: with `a0 = 2` and `nbs_fixed` true, the code
computes `a0bis = a0 - 1 + 1200/2 = 601`, not the fixed constant `600`
stated in the claim. -/
theorem claim8_a0bis_cex : a0bis 2 5 true ≠ 600 := by
  norm_num [a0bis]

/-- C8 (amended): in every backend, `a0bis = a0 - 1 + 600` when
`nbs_fixed` is true, `a0bis = a0 - 1 + nbs/2` when it is false, and
`a1bis = a1 - 1 + nchan/2`. -/
theorem claim8_a0bis_formula :
    (∀ (a0 : ℝ) (nbs : ℕ), a0bis a0 nbs true = a0 - 1 + 600) ∧
    (∀ (a0 : ℝ) (nbs : ℕ), a0bis a0 nbs false = a0 - 1 + (nbs : ℝ) / 2) ∧
    (∀ (a1 : ℝ) (nchan : ℕ), a1bis a1 nchan = a1 - 1 + (nchan : ℝ) / 2) := by
  refine ⟨fun a0 nbs => ?_, fun a0 nbs => ?_, fun a1 nchan => ?_⟩ <;>
    norm_num [a0bis, a1bis]

/-! ## C10: crop false / store false -/

/-- C10: with `crop` false and `store` false, `compute_inversions` cannot
return its result tuple: the `return sol_full, ...` statement references
the variable `sol_full` that only the `crop is True` branch assigns, so
the call fails with an unbound-local error; with `crop` true and `store`
false the same line returns the tuple normally. -/
theorem claim10_crop_false_store_false_error :
    ∀ (n0 n1 : ℕ) (cropbs : ℕ → ℕ → Bool)
      (sol mu chi2n regularity : List ℝ) (niter : List ℕ),
      computeInversionsFormat false false n0 n1 cropbs sol mu chi2n
          regularity niter =
        Except.error
          "UnboundLocalError: local variable 'sol_full' referenced before assignment" ∧
      computeInversionsFormat true false n0 n1 cropbs sol mu chi2n
          regularity niter =
        Except.ok
          (some (scatterSol n0 n1 cropbs sol, mu, chi2n, regularity,
            niter)) := by
  intro n0 n1 cropbs sol mu chi2n regularity niter
  exact ⟨rfl, rfl⟩

/-! ## C6: positivity of the regularization strength -/

/-- Positivity of the `mu1` produced by the hyperparameter update under
the Gamma-prior positivity preconditions. -/
lemma augTikhoUpdate_mu_pos (a0b b0 a1b b1 d res2 reg : ℝ)
    (ha0 : 0 < a0b) (hb0 : 0 < b0) (ha1 : 0 < a1b) (hb1 : 0 < b1)
    (hres2 : 0 < res2) (hreg : 0 ≤ reg) :
    0 < (augTikhoUpdate a0b b0 a1b b1 d res2 reg).2.2 := by
  have hlamb : 0 < a0b / (0.5 * reg + b0) :=
    div_pos ha0 (by nlinarith)
  have htau : 0 < a1b / (0.5 * res2 + b1) :=
    div_pos ha1 (by nlinarith)
  have hbase : 0 < 2 * a1b / res2 := div_pos (by nlinarith) hres2
  exact mul_pos (div_pos hlamb htau) (Real.rpow_pos_of_pos hbase d)

/-- C6: under the preconditions `a0bis > 0`, `b0 > 0`, `a1bis > 0`,
`b1 > 0`, `res2 > 0`, `reg ≥ 0`, every iteration produces
`mu1 = (lamb/tau)*(2*a1bis/res2)**d > 0`; consequently any returned
regularization strength `mu1` of a backend run started from the initial
state is strictly positive. -/
theorem claim6_mu_positive :
    (∀ (a0b b0 a1b b1 d res2 reg : ℝ), 0 < a0b → 0 < b0 → 0 < a1b →
      0 < b1 → 0 < res2 → 0 ≤ reg →
      0 < (augTikhoUpdate a0b b0 a1b b1 d res2 reg).2.2) ∧
    (∀ (nchan nbs : ℕ) (S : Type) (p : AugTikhoParams nchan nbs)
      (solve : S → Matrix (Fin nbs) (Fin nbs) ℝ → (Fin nbs → ℝ) →
        (Fin nbs → ℝ) × S)
      (sol0 : Fin nbs → ℝ) (mu0 : ℝ) (s : S) (fuel : ℕ)
      (st : AugTikhoState nbs S),
      0 < a0bis p.a0 nbs p.nbs_fixed → 0 < p.b0 →
      0 < a1bis p.a1 nchan → 0 < p.b1 →
      (∀ v : Fin nbs → ℝ, 0 < ∑ i, (p.Tn.mulVec v i - p.yn i) ^ 2) →
      (∀ v : Fin nbs → ℝ, 0 ≤ v ⬝ᵥ p.R.mulVec v) →
      augTikhoRun p solve fuel (initState sol0 mu0 s) = some st →
      0 < st.mu1) := by
  constructor
  · exact augTikhoUpdate_mu_pos
  · intro nchan nbs S p solve sol0 mu0 s fuel st ha0 hb0 ha1 hb1 hres hreg h
    rcases augTikhoRun_init_reached p solve fuel sol0 mu0 s st h with
      ⟨st1, rfl⟩
    exact augTikhoUpdate_mu_pos _ _ _ _ _ _ _ ha0 hb0 ha1 hb1 (hres _)
      (hreg _)

/-- Witness for C6: on the concrete `pA` instance (where `res2 = 1 > 0`
at every iteration and `R = 0`), the update produces `mu1 > 0` and the
returned regularization strength `1200` is strictly positive. -/
theorem claim6_mu_positive_witness :
    0 < (augTikhoUpdate 600 1 (1 / 2) (1 / 2) 37 1 0).2.2 ∧
    (0 : ℝ) < 1200 :=
  ⟨claim6_mu_positive.1 600 1 (1 / 2) (1 / 2) 37 1 0 (by norm_num)
      (by norm_num) (by norm_num) (by norm_num) (by norm_num)
      (by norm_num),
   claim6_mu_positive.2 1 1 Unit pA solveZero (fun _ => 0) 1 () 2 _
      (by norm_num [a0bis, pA]) (by norm_num [pB, pA])
      (by norm_num [a1bis, pA]) (by norm_num [pA])
      (fun v => by
        norm_num [pA, Matrix.mulVec, dotProduct, Fin.sum_univ_one])
      (fun v => by
        norm_num [pA, Matrix.mulVec, dotProduct, Fin.sum_univ_one])
      (augTikhoRunA (fun _ => 0) 1)⟩

/-! ## C7: crop scatter / gather round trip -/

/-- The `j`-th element of an increasing filtered range has exactly `j`
filtered elements strictly below it. -/
lemma filter_range_rank (q : ℕ → Bool) :
    ∀ (N j : ℕ), j < ((List.range N).filter q).length →
      ((List.range (((List.range N).filter q).getD j 0)).filter q).length
        = j := by
  intro N
  induction N with
  | zero =>
      intro j hj
      simp at hj
  | succ n ih =>
      intro j hj
      have hsplit : (List.range (n + 1)).filter q
          = (List.range n).filter q ++ List.filter q [n] := by
        rw [List.range_succ, List.filter_append]
      by_cases hq : q n = true
      · have hone : List.filter q [n] = [n] := by simp [hq]
        rw [hsplit, hone] at hj ⊢
        rcases Nat.lt_or_ge j ((List.range n).filter q).length with hlt | hge
        · rw [List.getD_append _ _ _ _ hlt]
          exact ih j hlt
        · have hj2 : j = ((List.range n).filter q).length := by
            simp only [List.length_append, List.length_singleton] at hj
            omega
          rw [List.getD_append_right _ _ _ _ hge, hj2]
          simp
      · have hnone : List.filter q [n] = [] := by simp [hq]
        rw [hsplit, hnone, List.append_nil] at hj ⊢
        exact ih j hj

/-- C7: scattering a solution vector of length `nbs` into the full
`(n0, n1)` grid through the column-major crop-mask indexing of the result
assembler and gathering the masked entries back in the same order
reproduces the vector exactly. -/
theorem claim7_crop_round_trip (n0 n1 : ℕ) (cropbs : ℕ → ℕ → Bool)
    (sol : List ℝ)
    (hlen : sol.length = (cropKeptIdx n0 n1 cropbs).length) :
    gatherSol n0 n1 cropbs (scatterSol n0 n1 cropbs sol) = sol := by
  apply List.ext_getElem
  · simp [gatherSol, hlen]
  · intro j hj1 hj2
    have hjk : j < (cropKeptIdx n0 n1 cropbs).length := by
      simpa [gatherSol] using hj1
    have hget : (gatherSol n0 n1 cropbs (scatterSol n0 n1 cropbs sol))[j]
        = scatterSol n0 n1 cropbs sol
            ((cropKeptIdx n0 n1 cropbs)[j] % n0)
            ((cropKeptIdx n0 n1 cropbs)[j] / n0) := by
      simp [gatherSol]
    rw [hget]
    have hmem : (cropKeptIdx n0 n1 cropbs)[j] ∈ cropKeptIdx n0 n1 cropbs :=
      List.getElem_mem hjk
    have hmem2 := List.mem_filter.mp hmem
    have hklt : (cropKeptIdx n0 n1 cropbs)[j] < n0 * n1 :=
      List.mem_range.mp hmem2.1
    have hmask : cropMaskFlat n0 cropbs ((cropKeptIdx n0 n1 cropbs)[j])
        = true := hmem2.2
    have hn0 : 0 < n0 := by
      rcases Nat.eq_zero_or_pos n0 with h | h
      · subst h
        rw [Nat.zero_mul] at hklt
        omega
      · exact h
    have hr : (cropKeptIdx n0 n1 cropbs)[j] % n0 < n0 :=
      Nat.mod_lt _ hn0
    have hc : (cropKeptIdx n0 n1 cropbs)[j] / n0 < n1 :=
      Nat.div_lt_of_lt_mul hklt
    have hkid : (cropKeptIdx n0 n1 cropbs)[j] / n0 * n0
        + (cropKeptIdx n0 n1 cropbs)[j] % n0
        = (cropKeptIdx n0 n1 cropbs)[j] :=
      Nat.div_add_mod' _ n0
    rw [scatterSol, hkid, if_pos ⟨hr, hc, hmask⟩]
    have hrank : rankBefore n0 cropbs ((cropKeptIdx n0 n1 cropbs)[j]) = j := by
      have := filter_range_rank (cropMaskFlat n0 cropbs) (n0 * n1) j
        (by simpa [cropKeptIdx] using hjk)
      rw [List.getD_eq_getElem _ _ (by simpa [cropKeptIdx] using hjk)] at this
      simpa [rankBefore, cropKeptIdx] using this
    rw [hrank]
    exact List.getD_eq_getElem sol 0 hj2

/-! ## C2: the chain flag and the shared `sol0` buffer

The backends execute `sol0[:] = sol[:]` on the caller's `sol0` numpy
buffer at the end of every iteration, so when a backend returns, the
buffer already holds the converged solution.  The driver's
`if chain: sol0[:] = sol[ii, :]` (lines 441-442) is therefore a no-op,
and the `sol0` handed to the backend at sample `ii+1` is the solution
converged at sample `ii` for both values of `chain`. -/

/-- Chain invariance of the dense time loop, for any backend whose
returned `sol0` buffer content equals its returned solution. -/
lemma computeInvLoopDense_chain_eq {nchan nbs : ℕ} {S : Type}
    (matrix : Matrix (Fin nchan) (Fin nbs) ℝ) (nsig : ℕ)
    (sigma : ℕ → Fin nchan → ℝ) (data_n : ℕ → Fin nchan → ℝ)
    (func : Matrix (Fin nchan) (Fin nbs) ℝ → Matrix (Fin nbs) (Fin nbs) ℝ →
      (Fin nbs → ℝ) → (Fin nchan → ℝ) → (Fin nbs → ℝ) → ℝ →
      Option (BackendResult nbs S))
    (hfunc : ∀ Tn TTn Tyn yn s0 m0 r, func Tn TTn Tyn yn s0 m0 = some r →
      r.state.sol0 = r.state.sol) :
    ∀ (nrem ii : ℕ) (Tn : Matrix (Fin nchan) (Fin nbs) ℝ)
      (TTn : Matrix (Fin nbs) (Fin nbs) ℝ) (sol0 : Fin nbs → ℝ) (mu0 : ℝ),
      computeInvLoopDense matrix nsig sigma data_n true func ii nrem Tn TTn
          sol0 mu0
        = computeInvLoopDense matrix nsig sigma data_n false func ii nrem
          Tn TTn sol0 mu0 := by
  intro nrem
  induction nrem with
  | zero => intro ii Tn TTn sol0 mu0; rfl
  | succ n ih =>
      intro ii Tn TTn sol0 mu0
      simp only [computeInvLoopDense]
      cases hf : func (loopTnDense matrix nsig sigma ii Tn)
          (loopTTn nsig (loopTnDense matrix nsig sigma ii Tn) TTn)
          ((loopTnDense matrix nsig sigma ii Tn)ᵀ.mulVec (data_n ii))
          (data_n ii) sol0 mu0 with
      | none => rfl
      | some res =>
          simp only [Option.some_bind, reduceIte, Bool.false_eq_true,
            if_false]
          rw [hfunc _ _ _ _ _ _ _ hf, ih]

/-- In any run of the dense time loop (either value of `chain`, backend
with the buffer property): the list of `sol0` values handed to the
backend equals the initial `sol0` followed by the per-sample converged
solutions, with the last one dropped. -/
lemma computeInvLoopDense_handed {nchan nbs : ℕ} {S : Type}
    (matrix : Matrix (Fin nchan) (Fin nbs) ℝ) (nsig : ℕ)
    (sigma : ℕ → Fin nchan → ℝ) (data_n : ℕ → Fin nchan → ℝ) (chain : Bool)
    (func : Matrix (Fin nchan) (Fin nbs) ℝ → Matrix (Fin nbs) (Fin nbs) ℝ →
      (Fin nbs → ℝ) → (Fin nchan → ℝ) → (Fin nbs → ℝ) → ℝ →
      Option (BackendResult nbs S))
    (hfunc : ∀ Tn TTn Tyn yn s0 m0 r, func Tn TTn Tyn yn s0 m0 = some r →
      r.state.sol0 = r.state.sol) :
    ∀ (nrem ii : ℕ) (Tn : Matrix (Fin nchan) (Fin nbs) ℝ)
      (TTn : Matrix (Fin nbs) (Fin nbs) ℝ) (sol0 : Fin nbs → ℝ) (mu0 : ℝ),
      (computeInvLoopDense matrix nsig sigma data_n chain func ii nrem Tn
          TTn sol0 mu0).map
          (fun recs => recs.map (fun r => r.sol0Handed))
        = (computeInvLoopDense matrix nsig sigma data_n chain func ii nrem
          Tn TTn sol0 mu0).map
          (fun recs => (sol0 :: recs.map (fun r => r.sol)).dropLast) := by
  intro nrem
  induction nrem with
  | zero => intro ii Tn TTn sol0 mu0; rfl
  | succ n ih =>
      intro ii Tn TTn sol0 mu0
      simp only [computeInvLoopDense]
      cases hf : func (loopTnDense matrix nsig sigma ii Tn)
          (loopTTn nsig (loopTnDense matrix nsig sigma ii Tn) TTn)
          ((loopTnDense matrix nsig sigma ii Tn)ᵀ.mulVec (data_n ii))
          (data_n ii) sol0 mu0 with
      | none => rfl
      | some res =>
          simp only [Option.some_bind]
          cases hr : computeInvLoopDense matrix nsig sigma data_n chain
              func (ii + 1) n (loopTnDense matrix nsig sigma ii Tn)
              (loopTTn nsig (loopTnDense matrix nsig sigma ii Tn) TTn)
              (if chain then res.state.sol else res.state.sol0)
              res.state.mu1 with
          | none => rfl
          | some rest =>
              have hnext : (if chain then res.state.sol
                  else res.state.sol0) = res.state.sol := by
                cases chain
                · simpa using hfunc _ _ _ _ _ _ _ hf
                · simp
              have hih := ih (ii + 1)
                (loopTnDense matrix nsig sigma ii Tn)
                (loopTTn nsig (loopTnDense matrix nsig sigma ii Tn) TTn)
                (if chain then res.state.sol else res.state.sol0)
                res.state.mu1
              rw [hr] at hih
              simp only [Option.map_some'] at hih ⊢
              have hrest := Option.some.inj hih
              rw [List.map_cons, List.map_cons, hrest, hnext,
                List.dropLast_cons₂]

/-- C2 (code bug): with the four backends' `sol0[:] = sol[:]` buffer
mutation, the dense time loop produces identical results for
`chain = True` and `chain = False` — here instantiated with the
`inv_linear_augTikho_v1` backend — and even with `chain = False` the
`sol0` handed to the backend at each sample after the first is the
solution converged at the previous sample. -/
theorem claim2_chain_no_effect {nchan nbs : ℕ}
    (pbase : AugTikhoParams nchan nbs)
    (scplin_solve : Matrix (Fin nbs) (Fin nbs) ℝ → (Fin nbs → ℝ) →
      (Fin nbs → ℝ))
    (maxiter fuel : ℕ)
    (matrix : Matrix (Fin nchan) (Fin nbs) ℝ) (nsig : ℕ)
    (sigma : ℕ → Fin nchan → ℝ) (data_n : ℕ → Fin nchan → ℝ)
    (nrem ii : ℕ) (Tn : Matrix (Fin nchan) (Fin nbs) ℝ)
    (TTn : Matrix (Fin nbs) (Fin nbs) ℝ) (sol0 : Fin nbs → ℝ) (mu0 : ℝ) :
    computeInvLoopDense matrix nsig sigma data_n true
        (fun Tn2 TTn2 Tyn yn s0 m0 =>
          inv_linear_augTikho_v1
            { pbase with Tn := Tn2, TTn := TTn2, Tyn := Tyn, yn := yn }
            scplin_solve s0 m0 maxiter fuel)
        ii nrem Tn TTn sol0 mu0
      = computeInvLoopDense matrix nsig sigma data_n false
        (fun Tn2 TTn2 Tyn yn s0 m0 =>
          inv_linear_augTikho_v1
            { pbase with Tn := Tn2, TTn := TTn2, Tyn := Tyn, yn := yn }
            scplin_solve s0 m0 maxiter fuel)
        ii nrem Tn TTn sol0 mu0 ∧
    (computeInvLoopDense matrix nsig sigma data_n false
        (fun Tn2 TTn2 Tyn yn s0 m0 =>
          inv_linear_augTikho_v1
            { pbase with Tn := Tn2, TTn := TTn2, Tyn := Tyn, yn := yn }
            scplin_solve s0 m0 maxiter fuel)
        ii nrem Tn TTn sol0 mu0).map
        (fun recs => recs.map (fun r => r.sol0Handed))
      = (computeInvLoopDense matrix nsig sigma data_n false
        (fun Tn2 TTn2 Tyn yn s0 m0 =>
          inv_linear_augTikho_v1
            { pbase with Tn := Tn2, TTn := TTn2, Tyn := Tyn, yn := yn }
            scplin_solve s0 m0 maxiter fuel)
        ii nrem Tn TTn sol0 mu0).map
        (fun recs => (sol0 :: recs.map (fun r => r.sol)).dropLast) := by
  have hfunc : ∀ (Tn2 : Matrix (Fin nchan) (Fin nbs) ℝ)
      (TTn2 : Matrix (Fin nbs) (Fin nbs) ℝ) (Tyn : Fin nbs → ℝ)
      (yn : Fin nchan → ℝ) (s0 : Fin nbs → ℝ) (m0 : ℝ)
      (r : BackendResult nbs Unit),
      inv_linear_augTikho_v1
          { pbase with Tn := Tn2, TTn := TTn2, Tyn := Tyn, yn := yn }
          scplin_solve s0 m0 maxiter fuel = some r →
      r.state.sol0 = r.state.sol := by
    intro Tn2 TTn2 Tyn yn s0 m0 r h
    rcases Option.map_eq_some'.mp h with ⟨st, hst, hr⟩
    cases hr
    exact augTikhoRun_sol0_eq_sol _ _ fuel _ _ _ st hst
  exact ⟨computeInvLoopDense_chain_eq matrix nsig sigma data_n _ hfunc nrem
      ii Tn TTn sol0 mu0,
    computeInvLoopDense_handed matrix nsig sigma data_n false _ hfunc nrem
      ii Tn TTn sol0 mu0⟩

/-! ## C4: when are `Tn`, `TTn` recomputed -/

/-- Applying the per-sample `Tn` computation twice changes nothing: when
`sigma` is time varying it overwrites the buffer from `sigma[jj]` alone,
and otherwise it is the identity. -/
lemma loopTnDense_stable {nchan nbs : ℕ}
    (matrix : Matrix (Fin nchan) (Fin nbs) ℝ) (nsig : ℕ)
    (sigma : ℕ → Fin nchan → ℝ) (ii jj : ℕ)
    (Tn : Matrix (Fin nchan) (Fin nbs) ℝ) :
    loopTnDense matrix nsig sigma jj (loopTnDense matrix nsig sigma ii Tn)
      = loopTnDense matrix nsig sigma jj Tn := by
  unfold loopTnDense
  by_cases h : 1 < nsig <;> simp [h]

/-- Same stability for the sparse per-sample `Tn` computation. -/
lemma loopTnSparse_stable {nchan nbs : ℕ}
    (matrix : Matrix (Fin nchan) (Fin nbs) ℝ) (nsig : ℕ)
    (sigma : ℕ → Fin nchan → ℝ) (ii jj : ℕ)
    (Tn : Matrix (Fin nchan) (Fin nbs) ℝ) :
    loopTnSparse matrix nsig sigma jj (loopTnSparse matrix nsig sigma ii Tn)
      = loopTnSparse matrix nsig sigma jj Tn := by
  unfold loopTnSparse
  by_cases h : 1 < nsig <;> simp [h]

/-- Same for `TTn`. -/
lemma loopTTn_stable {nchan nbs : ℕ} (nsig : ℕ)
    (Tn2a Tn2b : Matrix (Fin nchan) (Fin nbs) ℝ)
    (TTn : Matrix (Fin nbs) (Fin nbs) ℝ) :
    loopTTn nsig Tn2b (loopTTn nsig Tn2a TTn) = loopTTn nsig Tn2b TTn := by
  unfold loopTTn
  by_cases h : 1 < nsig <;> simp [h]

/-- In the dense branch of the time loop, the `Tn` and `TTn` used at the
sample with offset `j` are `loopTnDense`/`loopTTn` applied to the initial
buffers. -/
lemma computeInvLoopDense_TnUsed {nchan nbs : ℕ} {S : Type}
    (matrix : Matrix (Fin nchan) (Fin nbs) ℝ) (nsig : ℕ)
    (sigma : ℕ → Fin nchan → ℝ) (data_n : ℕ → Fin nchan → ℝ) (chain : Bool)
    (func : Matrix (Fin nchan) (Fin nbs) ℝ → Matrix (Fin nbs) (Fin nbs) ℝ →
      (Fin nbs → ℝ) → (Fin nchan → ℝ) → (Fin nbs → ℝ) → ℝ →
      Option (BackendResult nbs S)) :
    ∀ (nrem ii : ℕ) (Tn : Matrix (Fin nchan) (Fin nbs) ℝ)
      (TTn : Matrix (Fin nbs) (Fin nbs) ℝ) (sol0 : Fin nbs → ℝ) (mu0 : ℝ),
      (computeInvLoopDense matrix nsig sigma data_n chain func ii nrem Tn
          TTn sol0 mu0).map
          (fun recs => recs.map (fun r => (r.TnUsed, r.TTnUsed)))
        = (computeInvLoopDense matrix nsig sigma data_n chain func ii nrem
          Tn TTn sol0 mu0).map
          (fun recs => (List.range recs.length).map (fun j =>
            (loopTnDense matrix nsig sigma (ii + j) Tn,
             loopTTn nsig (loopTnDense matrix nsig sigma (ii + j) Tn)
               TTn))) := by
  intro nrem
  induction nrem with
  | zero => intro ii Tn TTn sol0 mu0; rfl
  | succ n ih =>
      intro ii Tn TTn sol0 mu0
      simp only [computeInvLoopDense]
      cases hf : func (loopTnDense matrix nsig sigma ii Tn)
          (loopTTn nsig (loopTnDense matrix nsig sigma ii Tn) TTn)
          ((loopTnDense matrix nsig sigma ii Tn)ᵀ.mulVec (data_n ii))
          (data_n ii) sol0 mu0 with
      | none => rfl
      | some res =>
          simp only [Option.some_bind]
          cases hr : computeInvLoopDense matrix nsig sigma data_n chain
              func (ii + 1) n (loopTnDense matrix nsig sigma ii Tn)
              (loopTTn nsig (loopTnDense matrix nsig sigma ii Tn) TTn)
              (if chain then res.state.sol else res.state.sol0)
              res.state.mu1 with
          | none => rfl
          | some rest =>
              have hih := ih (ii + 1)
                (loopTnDense matrix nsig sigma ii Tn)
                (loopTTn nsig (loopTnDense matrix nsig sigma ii Tn) TTn)
                (if chain then res.state.sol else res.state.sol0)
                res.state.mu1
              rw [hr] at hih
              simp only [Option.map_some'] at hih ⊢
              have hrest := Option.some.inj hih
              congr 1
              rw [List.map_cons, hrest, List.length_cons,
                List.range_succ_eq_map, List.map_cons, List.map_map]
              rw [Nat.add_zero]
              congr 1
              apply List.map_congr_left
              intro j hj
              simp only [Function.comp_apply, loopTnDense_stable,
                loopTTn_stable]
              have harith : ii + 1 + j = ii + Nat.succ j := by omega
              rw [harith]

/-- In the sparse branch of the time loop, the `Tn` and `TTn` used at
the sample with offset `j` are `loopTnSparse`/`loopTTn` applied to the
initial buffers. -/
lemma computeInvLoopSparse_TnUsed {nchan nbs : ℕ} {S : Type}
    (matrix : Matrix (Fin nchan) (Fin nbs) ℝ) (nsig : ℕ)
    (sigma : ℕ → Fin nchan → ℝ) (data_n : ℕ → Fin nchan → ℝ) (chain : Bool)
    (func : Matrix (Fin nchan) (Fin nbs) ℝ → Matrix (Fin nbs) (Fin nbs) ℝ →
      (Fin nbs → ℝ) → (Fin nchan → ℝ) → (Fin nbs → ℝ) → ℝ →
      Option (BackendResult nbs S)) :
    ∀ (nrem ii : ℕ) (Tn : Matrix (Fin nchan) (Fin nbs) ℝ)
      (TTn : Matrix (Fin nbs) (Fin nbs) ℝ) (sol0 : Fin nbs → ℝ) (mu0 : ℝ),
      (computeInvLoopSparse matrix nsig sigma data_n chain func ii nrem Tn
          TTn sol0 mu0).map
          (fun recs => recs.map (fun r => (r.TnUsed, r.TTnUsed)))
        = (computeInvLoopSparse matrix nsig sigma data_n chain func ii nrem
          Tn TTn sol0 mu0).map
          (fun recs => (List.range recs.length).map (fun j =>
            (loopTnSparse matrix nsig sigma (ii + j) Tn,
             loopTTn nsig (loopTnSparse matrix nsig sigma (ii + j) Tn)
               TTn))) := by
  intro nrem
  induction nrem with
  | zero => intro ii Tn TTn sol0 mu0; rfl
  | succ n ih =>
      intro ii Tn TTn sol0 mu0
      simp only [computeInvLoopSparse]
      cases hf : func (loopTnSparse matrix nsig sigma ii Tn)
          (loopTTn nsig (loopTnSparse matrix nsig sigma ii Tn) TTn)
          ((loopTnSparse matrix nsig sigma ii Tn)ᵀ.mulVec (data_n ii))
          (data_n ii) sol0 mu0 with
      | none => rfl
      | some res =>
          simp only [Option.some_bind]
          cases hr : computeInvLoopSparse matrix nsig sigma data_n chain
              func (ii + 1) n (loopTnSparse matrix nsig sigma ii Tn)
              (loopTTn nsig (loopTnSparse matrix nsig sigma ii Tn) TTn)
              (if chain then res.state.sol else res.state.sol0)
              res.state.mu1 with
          | none => rfl
          | some rest =>
              have hih := ih (ii + 1)
                (loopTnSparse matrix nsig sigma ii Tn)
                (loopTTn nsig (loopTnSparse matrix nsig sigma ii Tn) TTn)
                (if chain then res.state.sol else res.state.sol0)
                res.state.mu1
              rw [hr] at hih
              simp only [Option.map_some'] at hih ⊢
              have hrest := Option.some.inj hih
              congr 1
              rw [List.map_cons, hrest, List.length_cons,
                List.range_succ_eq_map, List.map_cons, List.map_map]
              rw [Nat.add_zero]
              congr 1
              apply List.map_congr_left
              intro j hj
              simp only [Function.comp_apply, loopTnSparse_stable,
                loopTTn_stable]
              have harith : ii + 1 + j = ii + Nat.succ j := by omega
              rw [harith]

/-- C4 (amended): in both branches of the time loop, the `Tn` and `TTn`
used at the sample with offset `j` are `loopTnDense`/`loopTnSparse` and
`loopTTn` applied to the initial buffers: recomputed from
`sigma[ii+j, :]` if and only if `sigma.shape[0] > 1` — at every sample,
including the first — and otherwise the initial buffers reused
unchanged. -/
theorem claim4_recompute_iff_sigma_time_varying :
    (∀ (nchan nbs : ℕ) (S : Type)
      (matrix : Matrix (Fin nchan) (Fin nbs) ℝ) (nsig : ℕ)
      (sigma : ℕ → Fin nchan → ℝ) (data_n : ℕ → Fin nchan → ℝ)
      (chain : Bool)
      (func : Matrix (Fin nchan) (Fin nbs) ℝ →
        Matrix (Fin nbs) (Fin nbs) ℝ → (Fin nbs → ℝ) → (Fin nchan → ℝ) →
        (Fin nbs → ℝ) → ℝ → Option (BackendResult nbs S))
      (nrem ii : ℕ) (Tn : Matrix (Fin nchan) (Fin nbs) ℝ)
      (TTn : Matrix (Fin nbs) (Fin nbs) ℝ) (sol0 : Fin nbs → ℝ) (mu0 : ℝ),
      (computeInvLoopDense matrix nsig sigma data_n chain func ii nrem Tn
          TTn sol0 mu0).map
          (fun recs => recs.map (fun r => (r.TnUsed, r.TTnUsed)))
        = (computeInvLoopDense matrix nsig sigma data_n chain func ii nrem
          Tn TTn sol0 mu0).map
          (fun recs => (List.range recs.length).map (fun j =>
            (loopTnDense matrix nsig sigma (ii + j) Tn,
             loopTTn nsig (loopTnDense matrix nsig sigma (ii + j) Tn)
               TTn)))) ∧
    (∀ (nchan nbs : ℕ) (S : Type)
      (matrix : Matrix (Fin nchan) (Fin nbs) ℝ) (nsig : ℕ)
      (sigma : ℕ → Fin nchan → ℝ) (data_n : ℕ → Fin nchan → ℝ)
      (chain : Bool)
      (func : Matrix (Fin nchan) (Fin nbs) ℝ →
        Matrix (Fin nbs) (Fin nbs) ℝ → (Fin nbs → ℝ) → (Fin nchan → ℝ) →
        (Fin nbs → ℝ) → ℝ → Option (BackendResult nbs S))
      (nrem ii : ℕ) (Tn : Matrix (Fin nchan) (Fin nbs) ℝ)
      (TTn : Matrix (Fin nbs) (Fin nbs) ℝ) (sol0 : Fin nbs → ℝ) (mu0 : ℝ),
      (computeInvLoopSparse matrix nsig sigma data_n chain func ii nrem Tn
          TTn sol0 mu0).map
          (fun recs => recs.map (fun r => (r.TnUsed, r.TTnUsed)))
        = (computeInvLoopSparse matrix nsig sigma data_n chain func ii
          nrem Tn TTn sol0 mu0).map
          (fun recs => (List.range recs.length).map (fun j =>
            (loopTnSparse matrix nsig sigma (ii + j) Tn,
             loopTTn nsig (loopTnSparse matrix nsig sigma (ii + j) Tn)
               TTn)))) :=
  ⟨fun nchan nbs S matrix nsig sigma data_n chain func nrem ii Tn TTn sol0
      mu0 =>
    computeInvLoopDense_TnUsed matrix nsig sigma data_n chain func nrem ii
      Tn TTn sol0 mu0,
   fun nchan nbs S matrix nsig sigma data_n chain func nrem ii Tn TTn sol0
      mu0 =>
    computeInvLoopSparse_TnUsed matrix nsig sigma data_n chain func nrem
      ii Tn TTn sol0 mu0⟩

/-- C4 counterexample: a dense run with one time sample and time-varying
sigma (`sigma.shape[0] = 2`).  The claim says that at the first sample
(`ii = 0`) `Tn` is reused unchanged from the initial build (here
`Tn = 1/2`, from the time-averaged sigma); the code instead recomputes it
from `sigma[0, :] = 1`, so the `Tn` used at `ii = 0` is `1`. -/
theorem claim4_recompute_at_first_sample_cex :
    (computeInvLoopDense (S := Unit) (fun _ _ => 1) 2
        (fun i _ => if i = 0 then (1 : ℝ) else 3) (fun _ _ => 0) false
        (fun Tn2 TTn2 Tyn yn s0 m0 =>
          inv_linear_augTikho_v1
            { pB with Tn := Tn2, TTn := TTn2, Tyn := Tyn, yn := yn }
            (fun A b => fun _ => 0) s0 m0 7 2)
        0 1 (fun _ _ => 1 / 2) (fun _ _ => 1 / 4) (fun _ => 0) 1).map
        (fun recs => recs.map
          (fun (r : SampleRecord 1 1 Unit) => r.TnUsed 0 0))
      = some [1] ∧ (1 : ℝ) ≠ 1 / 2 := by
  constructor
  · simp only [computeInvLoopDense, loopTnDense, loopTTn]
    norm_num
    rw [invV1RunB _ _ _ _ rfl _ _ _]
    simp only [Option.some_bind, computeInvLoopDense, Option.map_some',
      List.map_cons, List.map_nil, Option.some.injEq, List.cons.injEq,
      and_true]
  · norm_num

/-! ## C5: lifetime of the sparse Cholesky factor -/

/-- With counting factor oracles (`cholmod_cholesky` always returns
`some c`, `cholesky_inplace` increments), the factor state after a run
that performed `niter` iterations is `some (c + niter - 1)`: one build
followed by one in-place update per later iteration of the same call. -/
lemma augTikhoRun_cholSparse_count {nchan nbs : ℕ}
    (p : AugTikhoParams nchan nbs) (c : ℕ)
    (slv : ℕ → (Fin nbs → ℝ) → (Fin nbs → ℝ))
    (sp : Matrix (Fin nbs) (Fin nbs) ℝ → (Fin nbs → ℝ) → (Fin nbs → ℝ)) :
    ∀ (fuel : ℕ) (st st2 : AugTikhoState nbs (Option ℕ)),
      (st.solverState = none ∧ st.niter = 0 ∨
        st.solverState = some (c + (st.niter - 1)) ∧ 1 ≤ st.niter) →
      augTikhoRun p (cholSparseSolve (fun _ => some c)
        (fun f _ => some (f + 1)) slv sp) fuel st = some st2 →
      st2.solverState = some (c + (st2.niter - 1)) ∧ 1 ≤ st2.niter := by
  intro fuel
  induction fuel with
  | zero =>
      intro st st2 hP h
      by_cases hg : st.niter < 2 ∨ p.conv_crit < st.conv
      · rw [augTikhoRun, if_pos hg] at h
        exact absurd h (by simp)
      · rw [augTikhoRun, if_neg hg] at h
        push_neg at hg
        cases h
        rcases hP with ⟨hs, hn⟩ | ⟨hs, hn⟩
        · omega
        · exact ⟨hs, hn⟩
  | succ n ih =>
      intro st st2 hP h
      by_cases hg : st.niter < 2 ∨ p.conv_crit < st.conv
      · rw [augTikhoRun, if_pos hg] at h
        refine ih _ _ ?_ h
        right
        rcases hP with ⟨hs, hn⟩ | ⟨hs, hn⟩
        · constructor
          · show (cholSparseSolve (fun _ => some c)
              (fun f _ => some (f + 1)) slv sp st.solverState
              (p.TTn + st.mu0 • p.R) p.Tyn).2
              = some (c + (st.niter + 1 - 1))
            rw [hs, hn]
            rfl
          · exact Nat.le_add_left 1 st.niter
        · constructor
          · show (cholSparseSolve (fun _ => some c)
              (fun f _ => some (f + 1)) slv sp st.solverState
              (p.TTn + st.mu0 • p.R) p.Tyn).2
              = some (c + (st.niter + 1 - 1))
            rw [hs]
            show some (c + (st.niter - 1) + 1) = some (c + (st.niter + 1 - 1))
            congr 1
            omega
          · exact Nat.le_add_left 1 st.niter
      · rw [augTikhoRun, if_neg hg] at h
        push_neg at hg
        cases h
        rcases hP with ⟨hs, hn⟩ | ⟨hs, hn⟩
        · omega
        · exact ⟨hs, hn⟩

/-- C5 counterexample: a two-sample sparse run of the time loop with the
sparse Cholesky backend and counting factor oracles.  Both samples start
their backend call with no factor (`factorStart = none`) and end it with
`some 6` (built as `some 5`, updated in place once); in particular the
factorization available at the start of the second sample is not the one
produced during the first. -/
theorem claim5_factor_not_reused_across_samples_cex :
    (computeInvLoopSparse (S := Option ℕ) (fun _ _ => 0) 1 (fun _ _ => 1)
        (fun _ _ => 0) false
        (fun Tn2 TTn2 Tyn yn s0 m0 =>
          inv_linear_augTikho_chol_sparse (F := ℕ)
            { pB with Tn := Tn2, TTn := TTn2, Tyn := Tyn, yn := yn }
            (fun A => some 5) (fun f A => some (f + 1))
            (fun f b => fun _ => 0) (fun A b => fun _ => 0) s0 m0 7 2)
        0 2 (fun _ _ => 0) (fun _ _ => 0) (fun _ => 0) 1).map
        (fun recs => recs.map
          (fun (r : SampleRecord 1 1 (Option ℕ)) =>
            (r.factorStart, r.factorEnd)))
      = some [(none, some 6), (none, some 6)] ∧
    (some 6 : Option ℕ) ≠ none := by
  constructor
  · simp only [computeInvLoopSparse, loopTnSparse, loopTTn]
    norm_num
    rw [invCholSparseRunB _ _ _ _ rfl _ _ _ _]
    simp only [Option.some_bind]
    rw [invCholSparseRunB _ _ _ _ rfl _ _ _ _]
    simp only [Option.some_bind, Option.map_some', List.map_cons,
      List.map_nil]
  · simp

/-- C5 (amended): the factor object of the sparse Cholesky backend is
created afresh at every backend call — the factor available at the start
of each call is `None`, not the one produced by a previous time sample —
and within one call it is built once and then reused, updated in place,
by every later iteration (with counting oracles the final factor is
`some (c + niter - 1)`). -/
theorem claim5_factor_fresh_per_sample :
    (∀ (nchan nbs : ℕ) (F : Type) (p : AugTikhoParams nchan nbs)
        cholmod_cholesky cholesky_inplace solve_A spsolve sol0 mu0 maxiter
        fuel (r : BackendResult nbs (Option F)),
      inv_linear_augTikho_chol_sparse (F := F) p cholmod_cholesky
        cholesky_inplace solve_A spsolve sol0 mu0 maxiter fuel = some r →
      r.factorStart = none) ∧
    (∀ (nchan nbs : ℕ) (p : AugTikhoParams nchan nbs) (c : ℕ) solve_A
        spsolve sol0 mu0 maxiter fuel (r : BackendResult nbs (Option ℕ)),
      inv_linear_augTikho_chol_sparse (F := ℕ) p (fun _ => some c)
        (fun f _ => some (f + 1)) solve_A spsolve sol0 mu0 maxiter fuel =
        some r →
      r.state.solverState = some (c + (r.state.niter - 1)) ∧
        1 ≤ r.state.niter) := by
  constructor
  · intro nchan nbs F p cholmod_cholesky cholesky_inplace solve_A spsolve
      sol0 mu0 maxiter fuel r h
    rcases Option.map_eq_some'.mp h with ⟨st, hst, hr⟩
    cases hr
    rfl
  · intro nchan nbs p c solve_A spsolve sol0 mu0 maxiter fuel r h
    rcases Option.map_eq_some'.mp h with ⟨st, hst, hr⟩
    cases hr
    exact augTikhoRun_cholSparse_count p c solve_A spsolve fuel _ st
      (Or.inl ⟨rfl, rfl⟩) hst

/-- Witness for C5 at the concrete counting instance: the call starts
with no factor and ends with `some 6 = some (5 + (2 - 1))` after two
iterations. -/
theorem claim5_factor_fresh_per_sample_witness :
    (none : Option ℕ) = none ∧
    ((some 6 : Option ℕ) = some (5 + (2 - 1)) ∧ 1 ≤ 2) :=
  ⟨claim5_factor_fresh_per_sample.1 1 1 ℕ
      { pB with
        Tn := (fun _ _ => 0),
        TTn := (fun _ _ => 0),
        Tyn := (fun _ => 0),
        yn := (fun _ => 0) }
      (fun A => some 5) (fun f A => some (f + 1)) (fun f b => fun _ => 0)
      (fun A b => fun _ => 0) (fun _ => 0) 1 7 2 _
      (invCholSparseRunB (fun _ _ => 0) (fun _ _ => 0) (fun _ => 0)
        (fun _ => 0) rfl (fun _ => 0) 1 7 5),
   claim5_factor_fresh_per_sample.2 1 1
      { pB with
        Tn := (fun _ _ => 0),
        TTn := (fun _ _ => 0),
        Tyn := (fun _ => 0),
        yn := (fun _ => 0) }
      5 (fun f b => fun _ => 0) (fun A b => fun _ => 0) (fun _ => 0) 1 7 2
      _
      (invCholSparseRunB (fun _ _ => 0) (fun _ _ => 0) (fun _ => 0)
        (fun _ => 0) rfl (fun _ => 0) 1 7 5)⟩

/-- Witness for C7 on a concrete 2-by-2 grid whose crop mask keeps three
cells. -/
theorem claim7_crop_round_trip_witness :
    gatherSol 2 2 (fun r c => !(r == 1 && c == 1))
        (scatterSol 2 2 (fun r c => !(r == 1 && c == 1))
          [(1 : ℝ), 2, 3])
      = [(1 : ℝ), 2, 3] :=
  claim7_crop_round_trip 2 2 _ _ (by rfl)


/-! ## C9: maxiter is not enforced -/

lemma c9A_apply (m : ℝ) : (c9P.TTn + m • c9P.R) 0 0 = m := by
  simp [c9P, Matrix.add_apply, Matrix.smul_apply]

lemma muSeq_pos (k : ℕ) : 0 < muSeq k := by
  unfold muSeq
  positivity

lemma muSeq_one_le (k : ℕ) : 1 ≤ muSeq k := by
  unfold muSeq
  exact one_le_pow₀ (by norm_num)

lemma muSeq_zero : muSeq 0 = 1 := by
  unfold muSeq
  norm_num

lemma muSeq_succ (k : ℕ) : muSeq (k + 1) = 4 * muSeq k ^ 2 := by
  unfold muSeq
  have h1 : (1:ℕ) ≤ 2 ^ k := Nat.one_le_two_pow
  have h2 : (2:ℕ) ^ (k + 1) = 2 ^ k * 2 := pow_succ 2 k
  rw [← pow_mul, show 2 ^ (k + 1) - 1 = 1 + (2 ^ k - 1) * 2 by omega,
    pow_add, pow_one]

lemma muSeq_lt (j k : ℕ) (h : j < k) : muSeq j < muSeq k := by
  unfold muSeq
  apply pow_lt_pow_right₀ (by norm_num)
  have hj : (1:ℕ) ≤ 2 ^ j := Nat.one_le_two_pow
  have hp : (2:ℕ) ^ j < 2 ^ k := Nat.pow_lt_pow_right (by norm_num) h
  omega

lemma c9Mu_pos (M : ℕ) : 0 < c9Mu M := by
  unfold c9Mu
  positivity

lemma c9sStar_sq (M : ℕ) : c9sStar M * c9sStar M = (c9Mu M)⁻¹ := by
  unfold c9sStar c9Mu
  rw [← mul_inv, ← pow_add]
  congr 1
  rw [show (4:ℝ) = 2 ^ 2 from by norm_num, ← pow_mul]
  congr 1
  omega

lemma c9Mu_eq (M : ℕ) : c9Mu M = 4 * muSeq (M + 2) := by
  unfold c9Mu muSeq
  have h1 : (1:ℕ) ≤ 2 ^ (M + 2) := Nat.one_le_two_pow
  have h2 : (4:ℝ) ^ 2 ^ (M + 2) = 4 ^ (1 + (2 ^ (M + 2) - 1)) := by
    congr 1
    omega
  rw [h2, pow_add, pow_one]

/-- A below-threshold iteration of the C9 instance: entering with
`mu0 = m > 0`, the oracle answers `1/(2m)` and the update yields
`mu1 = 4m²`. -/
lemma c9step_growth (M : ℕ) (st : AugTikhoState 1 Unit)
    (h0 : 0 < st.mu0) (hlt : st.mu0 < c9T M) :
    augTikhoStep c9P (c9solve M) st = c9Raw st.mu0 st.niter := by
  unfold augTikhoStep c9solve c9scplin c9Raw
  simp only [augTikhoUpdate, a0bis, a1bis, c9A_apply, if_pos hlt]
  norm_num [c9P, Matrix.mulVec, dotProduct, Fin.sum_univ_one,
    Real.rpow_zero, AugTikhoState.mk.injEq]
  have he : 2 * st.mu0 * (2 * st.mu0) = 4 * st.mu0 ^ 2 := by ring
  refine ⟨he, by rw [he], he, ?_, by ring⟩
  rw [pow_two, mul_inv]
  ring

/-- A beyond-threshold iteration of the C9 instance: the oracle answers
the constant `c9sStar M` and the update yields `mu1 = c9Mu M`. -/
lemma c9step_switch (M : ℕ) (st : AugTikhoState 1 Unit)
    (hge : ¬ st.mu0 < c9T M) :
    augTikhoStep c9P (c9solve M) st =
      { sol0 := fun _ => c9sStar M, mu0 := c9Mu M,
        conv := |c9Mu M - st.mu0| / c9Mu M, niter := st.niter + 1,
        mu1 := c9Mu M, sol := fun _ => c9sStar M, chi2n := 0,
        reg := c9sStar M ^ 2, tau := 2, lamb := 2 * c9Mu M,
        solverState := () } := by
  have hmu := c9Mu_pos M
  unfold augTikhoStep c9solve c9scplin
  simp only [augTikhoUpdate, a0bis, a1bis, c9A_apply, if_neg hge]
  norm_num [c9P, Matrix.mulVec, dotProduct, Fin.sum_univ_one,
    Real.rpow_zero, AugTikhoState.mk.injEq, c9sStar_sq]
  exact ⟨by rw [pow_two, c9sStar_sq], by ring⟩

lemma c9Raw_guard (M : ℕ) (m : ℝ) (k : ℕ) (hm : 1 ≤ m) :
    c9P.conv_crit < (c9Raw m k).conv := by
  have h0 : (0:ℝ) < m := lt_of_lt_of_le one_pos hm
  have h4 : (0:ℝ) < 4 * m ^ 2 := by positivity
  show (1:ℝ) / 2 < |4 * m ^ 2 - m| / (4 * m ^ 2)
  rw [abs_of_nonneg (by nlinarith)]
  rw [lt_div_iff₀ h4]
  nlinarith

lemma c9StS_guard (M : ℕ) : c9P.conv_crit < (c9StS M).conv := by
  have hx := muSeq_pos (M + 2)
  show (1:ℝ) / 2 < |c9Mu M - muSeq (M + 2)| / c9Mu M
  rw [c9Mu_eq]
  rw [abs_of_nonneg (by nlinarith)]
  rw [lt_div_iff₀ (by nlinarith)]
  nlinarith

lemma c9StF_exit (M : ℕ) :
    ¬((c9StF M).niter < 2 ∨ c9P.conv_crit < (c9StF M).conv) := by
  push_neg
  constructor
  · show 2 ≤ M + 4
    omega
  · show |c9Mu M - c9Mu M| / c9Mu M ≤ (1:ℝ) / 2
    norm_num

lemma c9step_G2S (M : ℕ) :
    augTikhoStep c9P (c9solve M) (c9Raw (muSeq (M + 1)) (M + 1)) =
      c9StS M := by
  have hmu0 : (c9Raw (muSeq (M + 1)) (M + 1)).mu0 = muSeq (M + 2) :=
    (muSeq_succ (M + 1)).symm
  rw [c9step_switch M _ (by rw [hmu0]; exact lt_irrefl _)]
  rw [hmu0]
  show _ = c9StS M
  unfold c9StS
  rfl

lemma c9step_S2F (M : ℕ) :
    augTikhoStep c9P (c9solve M) (c9StS M) = c9StF M := by
  have hge : ¬ (c9StS M).mu0 < c9T M := by
    show ¬ c9Mu M < c9T M
    rw [c9Mu_eq]
    have := muSeq_pos (M + 2)
    show ¬ 4 * muSeq (M + 2) < muSeq (M + 2)
    nlinarith
  rw [c9step_switch M _ hge]
  rfl

lemma c9step_growth_chain (M k : ℕ) (hk : k + 1 < M + 2) :
    augTikhoStep c9P (c9solve M) (c9Raw (muSeq k) k) =
      c9Raw (muSeq (k + 1)) (k + 1) := by
  have h0 : 0 < (c9Raw (muSeq k) k).mu0 := by
    have := muSeq_pos k
    show (0:ℝ) < 4 * muSeq k ^ 2
    positivity
  have hlt : (c9Raw (muSeq k) k).mu0 < c9T M := by
    show 4 * muSeq k ^ 2 < c9T M
    rw [← muSeq_succ]
    exact muSeq_lt _ _ hk
  rw [c9step_growth M _ h0 hlt]
  rw [show (c9Raw (muSeq k) k).mu0 = muSeq (k + 1) from
    (muSeq_succ k).symm]
  rfl

lemma c9run_from (M : ℕ) : ∀ (n k : ℕ), k + n = M + 1 →
    augTikhoRun c9P (c9solve M) (n + 3) (c9Raw (muSeq k) k) =
      some (c9StF M) := by
  intro n
  induction n with
  | zero =>
      intro k hk
      have hk1 : k = M + 1 := by omega
      subst hk1
      rw [show (0 + 3 : ℕ) = 2 + 1 from rfl, augTikhoRun]
      rw [if_pos (Or.inr (c9Raw_guard M _ _ (muSeq_one_le _)))]
      rw [c9step_G2S]
      rw [show (2 : ℕ) = 1 + 1 from rfl, augTikhoRun]
      rw [if_pos (Or.inr (c9StS_guard M))]
      rw [c9step_S2F]
      rw [augTikhoRun]
      rw [if_neg (c9StF_exit M)]
  | succ n ih =>
      intro k hk
      rw [show n + 1 + 3 = (n + 3) + 1 from by omega, augTikhoRun]
      rw [if_pos (Or.inr (c9Raw_guard M _ _ (muSeq_one_le _)))]
      rw [c9step_growth_chain M k (by omega)]
      exact ih (k + 1) (by omega)

/-- The C9 run: starting from the orchestrator initial state
(`mu0 = 1`), the loop performs `M + 4` iterations before it is allowed
to stop. -/
lemma c9run (M : ℕ) :
    augTikhoRun c9P (c9solve M) (M + 5) (initState (fun _ => 0) 1 ()) =
      some (c9StF M) := by
  have hstep0 : augTikhoStep c9P (c9solve M) (initState (fun _ => 0) 1 ())
      = c9Raw 1 0 := by
    have hlt : (initState (fun (_ : Fin 1) => (0:ℝ)) (1:ℝ) ()).mu0
        < c9T M := by
      show (1:ℝ) < c9T M
      rw [← muSeq_zero]
      exact muSeq_lt 0 (M + 2) (by omega)
    rw [c9step_growth M _ (by norm_num [initState]) hlt]
    rfl
  rw [show M + 5 = (M + 4) + 1 from by omega, augTikhoRun]
  rw [if_pos (Or.inl (by norm_num [initState]))]
  rw [hstep0]
  rw [show M + 4 = (M + 1) + 3 from by omega]
  rw [show (c9Raw 1 0) = c9Raw (muSeq 0) 0 from by rw [muSeq_zero]]
  exact c9run_from M (M + 1) 0 (by omega)

/-- The run above through the `inv_linear_augTikho_v1` wrapper, with
`maxiter = M`. -/
lemma c9v1run (M : ℕ) :
    inv_linear_augTikho_v1 c9P (c9scplin M) (fun _ => 0) 1 M (M + 5) =
      some ⟨c9StF M, ()⟩ := by
  unfold inv_linear_augTikho_v1
  exact (congrArg _ (c9run M)).trans rfl

/-- C9: `maxiter` is accepted but never read by any backend, so runs
with any two `maxiter` values perform the same iterations and return the
same results; and `maxiter` does not bound the iteration count: for
every `M` there is an input on which `inv_linear_augTikho_v1`, called
with `maxiter = M`, returns after `M + 4 > M` iterations. -/
theorem claim9_maxiter_unenforced :
    (∀ (nchan nbs : ℕ) (p : AugTikhoParams nchan nbs) scplin_solve sol0
        mu0 (m1 m2 fuel : ℕ),
      inv_linear_augTikho_v1 p scplin_solve sol0 mu0 m1 fuel =
        inv_linear_augTikho_v1 p scplin_solve sol0 mu0 m2 fuel) ∧
    (∀ (nchan nbs : ℕ) (p : AugTikhoParams nchan nbs) spsolve sol0 mu0
        (m1 m2 fuel : ℕ),
      inv_linear_augTikho_v1_sparse p spsolve sol0 mu0 m1 fuel =
        inv_linear_augTikho_v1_sparse p spsolve sol0 mu0 m2 fuel) ∧
    (∀ (nchan nbs : ℕ) (p : AugTikhoParams nchan nbs) cholesky_solve
        sym_solve sol0 mu0 (m1 m2 fuel : ℕ),
      inv_linear_augTikho_chol p cholesky_solve sym_solve sol0 mu0 m1
          fuel =
        inv_linear_augTikho_chol p cholesky_solve sym_solve sol0 mu0 m2
          fuel) ∧
    (∀ (nchan nbs : ℕ) (F : Type) (p : AugTikhoParams nchan nbs)
        cholmod_cholesky cholesky_inplace solve_A spsolve sol0 mu0
        (m1 m2 fuel : ℕ),
      inv_linear_augTikho_chol_sparse (F := F) p cholmod_cholesky
          cholesky_inplace solve_A spsolve sol0 mu0 m1 fuel =
        inv_linear_augTikho_chol_sparse (F := F) p cholmod_cholesky
          cholesky_inplace solve_A spsolve sol0 mu0 m2 fuel) ∧
    (∀ M : ℕ, ∃ r : BackendResult 1 Unit,
      inv_linear_augTikho_v1 c9P (c9scplin M) (fun _ => 0) 1 M (M + 5) =
        some r ∧ M < r.state.niter) := by
  refine ⟨fun _ _ _ _ _ _ _ _ _ => rfl, fun _ _ _ _ _ _ _ _ _ => rfl,
    fun _ _ _ _ _ _ _ _ _ _ => rfl,
    fun _ _ _ _ _ _ _ _ _ _ _ _ _ => rfl,
    fun M => ⟨⟨c9StF M, ()⟩, c9v1run M, ?_⟩⟩
  show M < M + 4
  omega

end
